import Mathlib

/-!
Verification of the `lake2html` converter (`src/index.ts`).

The TypeScript source is shallowly embedded below:

* JavaScript strings are modelled as Lean `String`/`List Char`
  (Unicode scalar values; the repository only manipulates such text).
* JavaScript runtime exceptions (`TypeError` from property access on
  `null`/`undefined` or calling `.replace` on a non-string,
  `InvalidCharacterError` from `atob`, `SyntaxError` from `JSON.parse`)
  are modelled with `Except JsErr`.
* The two regular expressions of the source
  (`combinedRegex` in `toHTML` and the attribute regex in
  `parseAttributes`) are embedded as explicit scanners that follow the
  JavaScript backtracking semantics of the patterns.
* `console.error` is modelled as a log list returned next to the output.

Scanning loops use an explicit fuel argument (initialised with the input
length, which is always sufficient because every step consumes at least
one character); this keeps every definition computable by the kernel.
-/

namespace Lake2Html

/-! ### Characters and JavaScript character classes -/

/-- The double-quote character `"`. -/
def quoteChar : Char := Char.ofNat 34

/-- The single-quote character `'`. -/
def aposChar : Char := Char.ofNat 39

/-- The opening-brace character. -/
def lbrace : Char := Char.ofNat 123

/-- The closing-brace character. -/
def rbrace : Char := Char.ofNat 125

/-- ASCII lower-casing, the fragment of `String.prototype.toLowerCase`
relevant to the attribute parser (keys only contain ASCII characters). -/
def lowerAscii (c : Char) : Char :=
  if 65 ≤ c.toNat ∧ c.toNat ≤ 90 then Char.ofNat (c.toNat + 32) else c

/-- ASCII lower-casing of a character list. -/
def lowerAsciiList (l : List Char) : List Char := l.map lowerAscii

/-- Case-insensitive character comparison used by the `i` regex flag
(the literals involved are ASCII, where JavaScript canonicalisation
agrees with ASCII case mapping). -/
def ciEq (a b : Char) : Bool := lowerAscii a == lowerAscii b

/-- ECMAScript `\\s` (WhiteSpace and LineTerminator), by code point:
TAB LF VT FF CR SP NBSP OGHAM, U+2000-U+200A, LS PS NNBSP MMSP
IDEOGRAPHIC SPACE and ZWNBSP. -/
def jsWs (c : Char) : Bool :=
  decide (c.toNat = 9) || decide (c.toNat = 10) || decide (c.toNat = 11) ||
  decide (c.toNat = 12) || decide (c.toNat = 13) || decide (c.toNat = 32) ||
  decide (c.toNat = 160) || decide (c.toNat = 5760) ||
  (decide (8192 <= c.toNat) && decide (c.toNat <= 8202)) ||
  decide (c.toNat = 8232) || decide (c.toNat = 8233) ||
  decide (c.toNat = 8239) || decide (c.toNat = 8287) ||
  decide (c.toNat = 12288) || decide (c.toNat = 65279)

/-- WHATWG "ASCII whitespace", stripped by the forgiving-base64 decode
performed by `atob`. -/
def asciiWs (c : Char) : Bool :=
  c == '\t' || c == '\n' || c == '\x0c' || c == '\r' || c == ' '

/-- ECMAScript `\w`: `[A-Za-z0-9_]`. -/
def isWordChar (c : Char) : Bool :=
  (decide (65 ≤ c.toNat) && decide (c.toNat ≤ 90)) ||
  (decide (97 ≤ c.toNat) && decide (c.toNat ≤ 122)) ||
  (decide (48 ≤ c.toNat) && decide (c.toNat ≤ 57)) ||
  c == '_'

/-- Key class of the unquoted-attribute alternative: `[\w\-:]`. -/
def isKeyCharPlain (c : Char) : Bool := isWordChar c || c == '-' || c == ':'

/-- Key class of the quoted-attribute alternatives: `[\w\-:"]`
(note that the source's character class includes the double quote). -/
def isKeyCharQuoted (c : Char) : Bool := isKeyCharPlain c || c == quoteChar

/-- Value class of the unquoted-attribute alternative: `[^\s"'<>]`. -/
def isUnquotedValChar (c : Char) : Bool :=
  !(jsWs c || c == quoteChar || c == aposChar || c == '<' || c == '>')

/-- Lookahead class `[\s/>]` that must follow each attribute occurrence. -/
def lookaheadOk (c : Char) : Bool := jsWs c || c == '/' || c == '>'

/-! ### JavaScript runtime values and errors -/

/-- The JavaScript exceptions that can arise in the source:
`InvalidCharacterError` (from `atob`), `SyntaxError` (from `JSON.parse`)
and `TypeError` (property access on `null`/`undefined`, or calling
`.replace` on a value that is not a string). -/
inductive JsErr where
  | invalidCharacter
  | syntaxError
  | typeError
  deriving DecidableEq, Repr

/-- JavaScript values as they occur at runtime in the source: the result
of `JSON.parse` and the fields threaded through the renderers. Numbers
are kept as their JSON lexeme (no built-in renderer converts a numeric
box value in the properties proved below). -/
inductive JSVal where
  | undef
  | null
  | bool (b : Bool)
  | num (lexeme : String)
  | str (s : String)
  | arr (elems : List JSVal)
  | obj (fields : List (String × JSVal))

/-- JavaScript truthiness. For numbers, a JSON lexeme denotes zero iff
all of its mantissa digits are `0` (JSON numbers are never `NaN`). -/
def jsTruthy : JSVal → Bool
  | .undef => false
  | .null => false
  | .bool b => b
  | .num lx =>
      -- a JSON number is zero iff every mantissa digit is 0
      let mantissa := lx.data.takeWhile (fun c => !(c == 'e' || c == 'E'))
      !(mantissa.all (fun c => c == '-' || c == '0' || c == '.'))
  | .str s => !s.isEmpty
  | .arr _ => true
  | .obj _ => true

/-- JavaScript `String(v)` conversion for the values above.
Numbers are rendered as their JSON lexeme (see `JSVal.num`). -/
def jsToString : JSVal → String
  | .undef => "undefined"
  | .null => "null"
  | .bool true => "true"
  | .bool false => "false"
  | .num lx => lx
  | .str s => s
  | .arr _ => ""   -- Array.prototype.toString; not reached by any renderer path proved below
  | .obj _ => "[object Object]"

/-- JavaScript property access `v[key]`: throws `TypeError` on `null` and
`undefined`; returns `undefined` for absent keys and for keys looked up on
primitives and arrays (no renderer reads `length` or index properties). -/
def jsGetField : JSVal → String → Except JsErr JSVal
  | .undef, _ => .error .typeError
  | .null, _ => .error .typeError
  | .obj fields, k => .ok ((fields.lookup k).getD .undef)
  | _, _ => .ok (.undef)

/-! ### Entity encoder (`encodeHTMLEntities`, src lines 126-139) -/

/-- The `htmlEntityMap` of the source. -/
def htmlEntityMap : List (Char × String) :=
  [('&', "&amp;"), ('<', "&lt;"), ('>', "&gt;"),
   (quoteChar, "&quot;"), ('\xa0', "&nbsp;")]

/-- The regex character class `[&<>"\xA0]` of `encodeHTMLEntities`. -/
def isEntityChar (c : Char) : Bool :=
  c == '&' || c == '<' || c == '>' || c == quoteChar || c == '\xa0'

/-- One step of `value.replace(/[&<>"\xA0]/g, m => htmlEntityMap.get(m)!)`:
a single-character class replaces character by character. The `getD ""`
models the source's non-null assertion `!`; it is never taken because the
class equals the map's domain. -/
def encodeHTMLEntitiesList : List Char → String
  | [] => ""
  | c :: cs =>
      (if isEntityChar c then (htmlEntityMap.lookup c).getD ""
       else String.singleton c) ++ encodeHTMLEntitiesList cs

/-- `encodeHTMLEntities` from the source. -/
def encodeHTMLEntities (value : String) : String :=
  encodeHTMLEntitiesList value.data

/-- `value.replace` applied to a non-string receiver throws `TypeError`;
renderers call the encode callback on raw box-value fields, so this is the
entry point they use. -/
def callEncode (enc : String → String) : JSVal → Except JsErr String
  | .str s => .ok (enc s)
  | _ => .error .typeError

/-! ### Base64 (`atob`, src lines 144-152) -/

/-- Position of a character in the standard Base64 alphabet. -/
def b64Index (c : Char) : Option Nat :=
  if 65 ≤ c.toNat ∧ c.toNat ≤ 90 then some (c.toNat - 65)
  else if 97 ≤ c.toNat ∧ c.toNat ≤ 122 then some (c.toNat - 97 + 26)
  else if 48 ≤ c.toNat ∧ c.toNat ≤ 57 then some (c.toNat - 48 + 52)
  else if c = '+' then some 62
  else if c = '/' then some 63
  else none

/-- Character of a 6-bit value in the standard Base64 alphabet. -/
def b64Char (n : Nat) : Char :=
  if n < 26 then Char.ofNat (n + 65)
  else if n < 52 then Char.ofNat (n - 26 + 97)
  else if n < 62 then Char.ofNat (n - 52 + 48)
  else if n = 62 then '+'
  else '/'

/-- Sextet stream back to bytes; a trailing group of two or three sextets
contributes one or two bytes, discarding leftover bits (forgiving
base64). -/
def b64DecodeSextets : List Nat → List Nat
  | [] => []
  | [_] => []
  | [a, b] => [a * 4 + b / 16]
  | [a, b, c] => [a * 4 + b / 16, b % 16 * 16 + c / 4]
  | a :: b :: c :: d :: rest =>
      (a * 4 + b / 16) :: (b % 16 * 16 + c / 4) :: (c % 4 * 64 + d) ::
        b64DecodeSextets rest

/-- Drop one trailing `=`, if present. -/
def stripPad1 (l : List Char) : List Char :=
  if l.getLast? = some '=' then l.dropLast else l

/-- Drop up to two trailing `=`. -/
def stripPad (l : List Char) : List Char := stripPad1 (stripPad1 l)

/-- The forgiving-base64 decode performed by `atob` (WHATWG): strip ASCII
whitespace; if the length is a multiple of four, drop up to two trailing
`=`; fail when the remaining length is 1 modulo 4 or some character is
outside the Base64 alphabet; otherwise convert sextets to bytes. -/
def atobBytes (value : String) : Except JsErr (List Nat) :=
  let cs := value.data.filter (fun c => !asciiWs c)
  let cs := if cs.length % 4 = 0 then stripPad cs else cs
  if cs.length % 4 = 1 then .error .invalidCharacter
  else
    match cs.mapM b64Index with
    | none => .error .invalidCharacter
    | some ds => .ok (b64DecodeSextets ds)

/-- Sextet stream of a byte list (standard Base64 chunking). -/
def b64Sextets : List Nat → List Nat
  | [] => []
  | [x] => [x / 4, x % 4 * 16]
  | [x, y] => [x / 4, x % 4 * 16 + y / 16, y % 16 * 4]
  | x :: y :: z :: rest =>
      (x / 4) :: (x % 4 * 16 + y / 16) :: (y % 16 * 4 + z / 64) :: (z % 64) ::
        b64Sextets rest

/-- Padding characters of the standard Base64 encoding. -/
def b64Pad : List Nat → List Char
  | [] => []
  | [_] => ['=', '=']
  | [_, _] => ['=']
  | _ :: _ :: _ :: rest => b64Pad rest

/-- Standard Base64 encoding of a byte sequence (the encoding used by the
editor when it fills the `value` attribute; spec side of the round-trip
property). -/
def base64Encode (bytes : List Nat) : String :=
  String.mk ((b64Sextets bytes).map b64Char ++ b64Pad bytes)

/-! ### UTF-8 (`TextDecoder`) -/

/-- UTF-8 encoding of one scalar value. -/
def utf8EncodeChar (c : Char) : List Nat :=
  let n := c.toNat
  if n < 128 then [n]
  else if n < 2048 then [192 + n / 64, 128 + n % 64]
  else if n < 65536 then [224 + n / 4096, 128 + n / 64 % 64, 128 + n % 64]
  else [240 + n / 262144, 128 + n / 4096 % 64, 128 + n / 64 % 64, 128 + n % 64]

/-- UTF-8 encoding of a character sequence. -/
def utf8Encode : List Char → List Nat
  | [] => []
  | c :: cs => utf8EncodeChar c ++ utf8Encode cs

/-- The replacement character U+FFFD. -/
def replChar : Char := Char.ofNat 65533

/-- Second-byte constraint of a three-byte sequence (WHATWG UTF-8
decoder: excludes overlong encodings and surrogates). -/
def utf8Cont3 (b1 b2 : Nat) : Bool :=
  if b1 = 224 then decide (160 ≤ b2) && decide (b2 ≤ 191)
  else if b1 = 237 then decide (128 ≤ b2) && decide (b2 ≤ 159)
  else decide (128 ≤ b2) && decide (b2 ≤ 191)

/-- Second-byte constraint of a four-byte sequence. -/
def utf8Cont4 (b1 b2 : Nat) : Bool :=
  if b1 = 240 then decide (144 ≤ b2) && decide (b2 ≤ 191)
  else if b1 = 244 then decide (128 ≤ b2) && decide (b2 ≤ 143)
  else decide (128 ≤ b2) && decide (b2 ≤ 191)

/-- A UTF-8 continuation byte. -/
def utf8ContB (b : Nat) : Bool := decide (128 ≤ b) && decide (b ≤ 191)

def utf8DecodeReplF : Nat → List Nat → List Char
  | 0, _ => []
  | _ + 1, [] => []
  | fuel + 1, b1 :: rest =>
    if b1 < 128 then Char.ofNat b1 :: utf8DecodeReplF fuel rest
    else if 194 ≤ b1 ∧ b1 ≤ 223 then
      match rest with
      | b2 :: rest2 =>
        if utf8ContB b2 then
          Char.ofNat ((b1 - 192) * 64 + (b2 - 128)) :: utf8DecodeReplF fuel rest2
        else replChar :: utf8DecodeReplF fuel (b2 :: rest2)
      | [] => [replChar]
    else if 224 ≤ b1 ∧ b1 ≤ 239 then
      match rest with
      | b2 :: b3 :: rest2 =>
        if utf8Cont3 b1 b2 && utf8ContB b3 then
          Char.ofNat ((b1 - 224) * 4096 + (b2 - 128) * 64 + (b3 - 128)) ::
            utf8DecodeReplF fuel rest2
        else replChar :: utf8DecodeReplF fuel (b2 :: b3 :: rest2)
      | _ => [replChar]
    else if 240 ≤ b1 ∧ b1 ≤ 244 then
      match rest with
      | b2 :: b3 :: b4 :: rest2 =>
        if utf8Cont4 b1 b2 && utf8ContB b3 && utf8ContB b4 then
          Char.ofNat ((b1 - 240) * 262144 + (b2 - 128) * 4096 +
              (b3 - 128) * 64 + (b4 - 128)) :: utf8DecodeReplF fuel rest2
        else replChar :: utf8DecodeReplF fuel (b2 :: b3 :: b4 :: rest2)
      | _ => [replChar]
    else replChar :: utf8DecodeReplF fuel rest

/-- UTF-8 decoding with replacement (see `utf8DecodeReplF`; the fuel,
one unit per decoded character, is always sufficient because every step
consumes at least one byte). -/
def utf8DecodeRepl (bytes : List Nat) : List Char :=
  utf8DecodeReplF bytes.length bytes

/-- `decodeBase64` from the source: `atob`, then the bytes are decoded as
UTF-8 by a `TextDecoder` (which strips a leading byte-order mark). -/
def decodeBase64 (value : String) : Except JsErr String := do
  let bytes ← atobBytes value
  let bytes := match bytes with
    | 239 :: 187 :: 191 :: rest => rest
    | _ => bytes
  pure (String.mk (utf8DecodeRepl bytes))

/-! ### JSON (`JSON.parse` / `JSON.stringify`) -/

/-- Lower-case hexadecimal digit. -/
def hexDigitLower (n : Nat) : Char :=
  if n < 10 then Char.ofNat (48 + n) else Char.ofNat (97 + n - 10)

/-- `JSON.stringify` escaping of one character: quote and backslash get a
backslash escape, the named control escapes are used where they exist,
other control characters become `\u00xx`, everything else is literal. -/
def escapeJsonChar (c : Char) : List Char :=
  if c = quoteChar then ['\\', quoteChar]
  else if c = '\\' then ['\\', '\\']
  else if c.toNat = 8 then ['\\', 'b']
  else if c.toNat = 9 then ['\\', 't']
  else if c.toNat = 10 then ['\\', 'n']
  else if c.toNat = 12 then ['\\', 'f']
  else if c.toNat = 13 then ['\\', 'r']
  else if c.toNat < 32 then
    ['\\', 'u', '0', '0', hexDigitLower (c.toNat / 16), hexDigitLower (c.toNat % 16)]
  else [c]

/-- `JSON.stringify` escaping of a character sequence. -/
def escapeJson : List Char → List Char
  | [] => []
  | c :: cs => escapeJsonChar c ++ escapeJson cs

/-- A JSON string literal: `"` + escaped body + `"`. -/
def jsonQuote (s : String) : List Char :=
  quoteChar :: (escapeJson s.data ++ [quoteChar])

/-- One serialised object member, `"key":"value"`. -/
def jsonMember (p : String × String) : List Char :=
  jsonQuote p.1 ++ ':' :: jsonQuote p.2

/-- Members after the first one, each preceded by a comma, closed by the
final brace. -/
def jsonMembersTail : List (String × String) → List Char
  | [] => [rbrace]
  | p :: rest => ',' :: (jsonMember p ++ jsonMembersTail rest)

/-- Serialised member list including the closing brace. -/
def jsonMembers : List (String × String) → List Char
  | [] => [rbrace]
  | p :: rest => jsonMember p ++ jsonMembersTail rest

/-- `JSON.stringify` of a flat string-to-string record, in insertion
order (spec side of the round-trip property: the serialisation the editor
transports inside the `value` attribute). -/
def jsonStringifyFlat (v : List (String × String)) : String :=
  String.mk (lbrace :: jsonMembers v)

/-- JSON insignificant whitespace. -/
def jsonWs (c : Char) : Bool :=
  c == ' ' || c == '\t' || c == '\n' || c == '\r'

/-- Skip JSON whitespace. -/
def skipJsonWs (s : List Char) : List Char := s.dropWhile jsonWs

/-- Hexadecimal digit value. -/
def parseHexDigit (c : Char) : Option Nat :=
  if 48 ≤ c.toNat ∧ c.toNat ≤ 57 then some (c.toNat - 48)
  else if 97 ≤ c.toNat ∧ c.toNat ≤ 102 then some (c.toNat - 87)
  else if 65 ≤ c.toNat ∧ c.toNat ≤ 70 then some (c.toNat - 55)
  else none

/-- JSON string body (after the opening quote). `\uXXXX` escapes combine
surrogate pairs; an unpaired surrogate becomes U+FFFD (a JavaScript
string would carry the lone code unit, which a Unicode-scalar model
cannot; no property below depends on lone surrogates). Raw control
characters are rejected as in the JSON grammar. -/
def parseJStrF : Nat → List Char → Except JsErr (List Char × List Char)
  | 0, _ => .error .syntaxError
  | _ + 1, [] => .error .syntaxError
  | fuel + 1, c :: rest =>
    if c = quoteChar then .ok ([], rest)
    else if c = '\\' then
      match rest with
      | [] => .error .syntaxError
      | e :: rest2 =>
        if e = quoteChar then do
          let (s, r) ← parseJStrF fuel rest2
          .ok (quoteChar :: s, r)
        else if e = '\\' then do
          let (s, r) ← parseJStrF fuel rest2
          .ok ('\\' :: s, r)
        else if e = '/' then do
          let (s, r) ← parseJStrF fuel rest2
          .ok ('/' :: s, r)
        else if e = 'b' then do
          let (s, r) ← parseJStrF fuel rest2
          .ok (Char.ofNat 8 :: s, r)
        else if e = 't' then do
          let (s, r) ← parseJStrF fuel rest2
          .ok ('\t' :: s, r)
        else if e = 'n' then do
          let (s, r) ← parseJStrF fuel rest2
          .ok ('\n' :: s, r)
        else if e = 'f' then do
          let (s, r) ← parseJStrF fuel rest2
          .ok (Char.ofNat 12 :: s, r)
        else if e = 'r' then do
          let (s, r) ← parseJStrF fuel rest2
          .ok ('\r' :: s, r)
        else if e = 'u' then
          match rest2 with
          | h1 :: h2 :: h3 :: h4 :: rest3 =>
            match parseHexDigit h1, parseHexDigit h2, parseHexDigit h3, parseHexDigit h4 with
            | some a, some b, some cc, some d =>
              let n := a * 4096 + b * 256 + cc * 16 + d
              if 55296 ≤ n ∧ n ≤ 56319 then
                -- high surrogate: look for a paired low surrogate escape
                match rest3 with
                | u1 :: u2 :: g1 :: g2 :: g3 :: g4 :: rest4 =>
                  match parseHexDigit g1, parseHexDigit g2, parseHexDigit g3, parseHexDigit g4 with
                  | some a2, some b2, some c2, some d2 =>
                    let m := a2 * 4096 + b2 * 256 + c2 * 16 + d2
                    if u1 = '\\' ∧ u2 = 'u' ∧ 56320 ≤ m ∧ m ≤ 57343 then do
                      let (s, r) ← parseJStrF fuel rest4
                      .ok (Char.ofNat (65536 + (n - 55296) * 1024 + (m - 56320)) :: s, r)
                    else do
                      let (s, r) ← parseJStrF fuel rest3
                      .ok (replChar :: s, r)
                  | _, _, _, _ => do
                    let (s, r) ← parseJStrF fuel rest3
                    .ok (replChar :: s, r)
                | _ => do
                  let (s, r) ← parseJStrF fuel rest3
                  .ok (replChar :: s, r)
              else if 56320 ≤ n ∧ n ≤ 57343 then do
                let (s, r) ← parseJStrF fuel rest3
                .ok (replChar :: s, r)
              else do
                let (s, r) ← parseJStrF fuel rest3
                .ok (Char.ofNat n :: s, r)
            | _, _, _, _ => .error .syntaxError
          | _ => .error .syntaxError
        else .error .syntaxError
    else if c.toNat < 32 then .error .syntaxError
    else do
      let (s, r) ← parseJStrF fuel rest
      .ok (c :: s, r)

/-- JSON string body (see `parseJStrF`; the fuel, one unit per consumed
character, is always sufficient). -/
def parseJStr (s : List Char) : Except JsErr (List Char × List Char) :=
  parseJStrF s.length s

/-- Decimal digit test. -/
def isDigitChar (c : Char) : Bool := decide (48 ≤ c.toNat) && decide (c.toNat ≤ 57)

/-- JSON number: `-? (0 | [1-9][0-9]*) (. [0-9]+)? ([eE][+-]?[0-9]+)?`,
kept as its lexeme. -/
def parseJNum (s : List Char) : Except JsErr (JSVal × List Char) :=
  let (sign, s1) :=
    match s with
    | c :: rest => if c = '-' then (['-'], rest) else (([] : List Char), s)
    | [] => ([], s)
  let intPart := s1.takeWhile isDigitChar
  let r1 := s1.drop intPart.length
  if intPart.isEmpty then .error .syntaxError
  else if intPart.head? = some '0' ∧ intPart.length > 1 then .error .syntaxError
  else
    let (fracPart, r2) :=
      match r1 with
      | c :: rest =>
        if c = '.' then
          let fr := rest.takeWhile isDigitChar
          (('.' :: fr : List Char), rest.drop fr.length)
        else (([] : List Char), r1)
      | [] => ([], r1)
    if fracPart = ['.'] then .error .syntaxError
    else
      let (expPart, r3) :=
        match r2 with
        | c :: rest =>
          if c = 'e' ∨ c = 'E' then
            let (esign, rest2) :=
              match rest with
              | c2 :: rest2 =>
                if c2 = '+' ∨ c2 = '-' then (([c2] : List Char), rest2)
                else (([] : List Char), rest)
              | [] => ([], rest)
            let ed := rest2.takeWhile isDigitChar
            ((c :: (esign ++ ed) : List Char), rest2.drop ed.length)
          else (([] : List Char), r2)
        | [] => ([], r2)
      if expPart ≠ [] ∧ (expPart.getLast? = some 'e' ∨ expPart.getLast? = some 'E' ∨
          expPart.getLast? = some '+' ∨ expPart.getLast? = some '-') then
        .error .syntaxError
      else
        .ok (.num (String.mk (sign ++ intPart ++ fracPart ++ expPart)), r3)

/-- Insert a member into an object under construction: a repeated key
overwrites the value in place, a new key is appended (JavaScript object
insertion order). -/
def upsertField (fields : List (String × JSVal)) (k : String) (v : JSVal) :
    List (String × JSVal) :=
  if fields.any (fun p => p.1 == k) then
    fields.map (fun p => if p.1 == k then (k, v) else p)
  else fields ++ [(k, v)]

mutual

/-- One JSON value. The fuel bounds the nesting depth and the member
count; `jsonParse` passes the input length, which is always enough since
every decrement consumes at least one character. -/
def parseValue : Nat → List Char → Except JsErr (JSVal × List Char)
  | 0, _ => .error .syntaxError
  | fuel + 1, s =>
    match s with
    | [] => .error .syntaxError
    | c :: rest =>
      if c = lbrace then parseObjBody fuel (skipJsonWs rest) []
      else if c = '[' then parseArrBody fuel (skipJsonWs rest) []
      else if c = quoteChar then do
        let (cs, r) ← parseJStrF fuel rest
        .ok (.str (String.mk cs), r)
      else if c = 't' then
        match rest with
        | 'r' :: 'u' :: 'e' :: r => .ok (.bool true, r)
        | _ => .error .syntaxError
      else if c = 'f' then
        match rest with
        | 'a' :: 'l' :: 's' :: 'e' :: r => .ok (.bool false, r)
        | _ => .error .syntaxError
      else if c = 'n' then
        match rest with
        | 'u' :: 'l' :: 'l' :: r => .ok (.null, r)
        | _ => .error .syntaxError
      else parseJNum s

/-- Object members after `{` (whitespace already skipped): `}` closes an
empty object, otherwise key/value pairs separated by commas. -/
def parseObjBody : Nat → List Char → List (String × JSVal) →
    Except JsErr (JSVal × List Char)
  | 0, _, _ => .error .syntaxError
  | fuel + 1, s, acc =>
    match s with
    | [] => .error .syntaxError
    | c :: rest =>
      if c = rbrace then
        if acc.isEmpty then .ok (.obj [], rest) else .error .syntaxError
      else if c = quoteChar then do
        let (k, r1) ← parseJStrF fuel rest
        match skipJsonWs r1 with
        | ':' :: r3 => do
          let (v, r4) ← parseValue fuel (skipJsonWs r3)
          let acc2 := upsertField acc (String.mk k) v
          match skipJsonWs r4 with
          | c2 :: r6 =>
            if c2 = ',' then parseObjBody fuel (skipJsonWs r6) acc2
            else if c2 = rbrace then .ok (.obj acc2, r6)
            else .error .syntaxError
          | [] => .error .syntaxError
        | _ => .error .syntaxError
      else .error .syntaxError

/-- Array elements after `[` (whitespace already skipped). -/
def parseArrBody : Nat → List Char → List JSVal →
    Except JsErr (JSVal × List Char)
  | 0, _, _ => .error .syntaxError
  | fuel + 1, s, acc =>
    match s with
    | [] => .error .syntaxError
    | c :: rest =>
      if c = ']' then
        if acc.isEmpty then .ok (.arr [], rest) else .error .syntaxError
      else do
        let (v, r1) ← parseValue fuel s
        match skipJsonWs r1 with
        | c2 :: r2 =>
          if c2 = ',' then parseArrBody fuel (skipJsonWs r2) (acc ++ [v])
          else if c2 = ']' then .ok (.arr (acc ++ [v]), r2)
          else .error .syntaxError
        | [] => .error .syntaxError

end

/-- `JSON.parse` of the source: one JSON text, then only whitespace. -/
def jsonParse (s : String) : Except JsErr JSVal := do
  let (v, rest) ← parseValue (s.length + 1) (skipJsonWs s.data)
  if (skipJsonWs rest).isEmpty then pure v else .error .syntaxError

/-! ### Attribute parser (`parseAttributes`, src lines 157-171) -/

/-- Longest-first backtracking of the greedy unquoted value (maximal run
`v`) against the lookahead `(?=[\s/>])`: the largest length between 1 and
`v.length` such that the character right after that many value characters
satisfies the lookahead (the regex engine shortens the greedy run one
character at a time until the lookahead holds). -/
def findBtAux (v after : List Char) : Nat → Option Nat
  | 0 => none
  | k + 1 =>
    match (v ++ after)[k + 1]? with
    | some c => if lookaheadOk c then some (k + 1) else findBtAux v after k
    | none => findBtAux v after k

/-- Backtracking entry point: start from the full maximal run. -/
def findBt (v after : List Char) : Option Nat := findBtAux v after v.length

/-- Alternative 1 of the attribute regex, `([\w\-:]+)=([^\s"'<>]+)`
followed by the lookahead. Returns key, value and consumed length. The
greedy key run never backtracks: `=` is not a key character, so no
shorter run can be followed by `=`. -/
def attrAltA (t : List Char) : Option (List Char × List Char × Nat) :=
  let key := t.takeWhile isKeyCharPlain
  if key.isEmpty then none
  else
    match t.drop key.length with
    | '=' :: u =>
      let v := u.takeWhile isUnquotedValChar
      if v.isEmpty then none
      else
        match findBt v (u.drop v.length) with
        | some k => some (key, v.take k, key.length + 1 + k)
        | none => none
    | _ => none

/-- Alternative 2, `([\w\-:"]+)="([^"]*)"` followed by the lookahead
(the source's key class includes the double quote). Neither greedy run
can usefully backtrack: `=` is not a key character and the value class
excludes the quote. -/
def attrAltB (t : List Char) : Option (List Char × List Char × Nat) :=
  let key := t.takeWhile isKeyCharQuoted
  if key.isEmpty then none
  else
    match t.drop key.length with
    | e :: q :: u =>
      if e = '=' ∧ q = quoteChar then
        let v := u.takeWhile (fun c => c ≠ quoteChar)
        match u.drop v.length with
        | c :: c2 :: _ =>
          if c = quoteChar ∧ lookaheadOk c2 then
            some (key, v, key.length + 2 + v.length + 1)
          else none
        | _ => none
      else none
    | _ => none

/-- Alternative 3, `([\w\-:"]+)='([^']*)'` followed by the lookahead. -/
def attrAltC (t : List Char) : Option (List Char × List Char × Nat) :=
  let key := t.takeWhile isKeyCharQuoted
  if key.isEmpty then none
  else
    match t.drop key.length with
    | e :: q :: u =>
      if e = '=' ∧ q = aposChar then
        let v := u.takeWhile (fun c => c ≠ aposChar)
        match u.drop v.length with
        | c :: c2 :: _ =>
          if c = aposChar ∧ lookaheadOk c2 then
            some (key, v, key.length + 2 + v.length + 1)
          else none
        | _ => none
      else none
    | _ => none

/-- One attempt of the attribute regex at the current position: `\s+`
(the maximal run only — a shorter run would leave the alternatives
starting at a whitespace character, which no key class contains),
then the three alternatives in order. -/
def attrMatchAt (s : List Char) : Option (List Char × List Char × Nat) :=
  let w := s.takeWhile jsWs
  if w.isEmpty then none
  else
    let t := s.drop w.length
    match attrAltA t with
    | some (k, v, n) => some (k, v, w.length + n)
    | none =>
      match attrAltB t with
      | some (k, v, n) => some (k, v, w.length + n)
      | none =>
        match attrAltC t with
        | some (k, v, n) => some (k, v, w.length + n)
        | none => none

/-- The assignment `attributes[key] = value`: a repeated key overwrites
in place, a new key is appended (JavaScript object insertion order). -/
def upsertAttr (acc : List (String × String)) (k v : String) :
    List (String × String) :=
  if acc.any (fun p => p.1 == k) then
    acc.map (fun p => if p.1 == k then (k, v) else p)
  else acc ++ [(k, v)]

/-- The `exec` loop of `parseAttributes`: successive leftmost matches,
each processed and skipped. -/
def attrScanF : Nat → List Char → List (String × String) →
    List (String × String)
  | 0, _, acc => acc
  | _ + 1, [], acc => acc
  | fuel + 1, c :: cs, acc =>
    match attrMatchAt (c :: cs) with
    | some (k, v, n) =>
        attrScanF fuel ((c :: cs).drop n)
          (upsertAttr acc (String.mk (lowerAsciiList k)) (String.mk v))
    | none => attrScanF fuel cs acc

/-- `parseAttributes` from the source; keys are lower-cased on
extraction. -/
def parseAttributes (tag : String) : List (String × String) :=
  attrScanF tag.data.length tag.data []

/-! ### Node serialisation (`serializeAttributes`/`toBoxHTML`) -/

/-- A `BoxHTMLNode` as built by the renderers. Attribute values and
`innerHTML` hold whatever JavaScript value the renderer stored
(`equation` stores the raw box-value field); `isVoid` is compared with
`=== true` in the source, so only a literal `true` makes a void tag. -/
structure BoxHTMLNode where
  tagName : String
  attributes : Option (List (String × JSVal)) := none
  isVoid : Bool := false
  innerHTML : JSVal := (.undef)

/-- `serializeAttributes` from the source: `String(value)`, entity
encoding, `key="value"` pairs joined by single spaces in insertion
order. -/
def serializeAttributes (attrs : List (String × JSVal)) : String :=
  String.intercalate " " (attrs.map (fun p =>
    p.1 ++ "=" ++ String.singleton quoteChar ++
      encodeHTMLEntities (jsToString p.2) ++ String.singleton quoteChar))

/-- `toBoxHTML` from the source (`node.innerHTML ?? ''` turns a nullish
inner value into the empty string, anything else through `String`). -/
def toBoxHTML (node : BoxHTMLNode) : String :=
  let base := "<" ++ node.tagName
  let base :=
    match node.attributes with
    | some attrs => base ++ " " ++ serializeAttributes attrs
    | none => base
  if node.isVoid then base ++ " />"
  else
    base ++ ">" ++
      (match node.innerHTML with
       | .undef => ""
       | .null => ""
       | v => jsToString v) ++
      "</" ++ node.tagName ++ ">"

/-! ### Renderer registry (`getBoxRenderers`, src lines 33-123) -/

/-- A renderer: box value and encode callback to a node, or a thrown
exception (the built-ins throw `TypeError` exactly where the JavaScript
would: property access on a nullish box value, `encode` on a non-string
field). -/
def RenderBox := JSVal → (String → String) → Except JsErr BoxHTMLNode

/-- A renderer registry (`Record<string, RenderBox>`). -/
def BoxRenderers := String → Option RenderBox

/-- `/[\w\-]+$/`: the maximal trailing run of word or hyphen characters,
or the empty string. -/
def extractIdFromUrl (url : String) : String :=
  String.mk ((url.data.reverse.takeWhile (fun c => isWordChar c || c == '-')).reverse)

/-- The `hr` renderer. -/
def hr : RenderBox := fun _ _ =>
  .ok { tagName := "div",
        attributes := some [("class", .str "lake-box-block lake-hr")],
        innerHTML := .str "<hr />" }

/-- The `image` renderer: `width`/`height`/`alt` are spread in only when
the corresponding field is truthy; `src` and `border` are always
present. -/
def image : RenderBox := fun boxValue _ => do
  let url ← jsGetField boxValue "url"
  let width ← jsGetField boxValue "width"
  let height ← jsGetField boxValue "height"
  let caption ← jsGetField boxValue "caption"
  .ok { tagName := "img",
        attributes := some ([("src", url)] ++
          (if jsTruthy width then [("width", width)] else []) ++
          (if jsTruthy height then [("height", height)] else []) ++
          (if jsTruthy caption then [("alt", caption)] else []) ++
          [("border", .str "0")]),
        isVoid := true }

/-- The `file` renderer. -/
def file : RenderBox := fun boxValue enc => do
  let url ← jsGetField boxValue "url"
  let name ← jsGetField boxValue "name"
  let inner ← callEncode enc name
  .ok { tagName := "a",
        attributes := some [("href", url), ("target", .str "_blank")],
        innerHTML := .str inner }

/-- The `codeBlock` renderer (the language class is not encoded). -/
def codeBlock : RenderBox := fun boxValue enc => do
  let lang ← jsGetField boxValue "lang"
  let code ← jsGetField boxValue "code"
  let inner ← callEncode enc code
  .ok { tagName := "pre",
        attributes := some [("class", .str ("lang-" ++ jsToString lang))],
        innerHTML := .str ("<code>" ++ inner ++ "</code>") }

/-- The `emoji` renderer. -/
def emoji : RenderBox := fun boxValue _ => do
  let url ← jsGetField boxValue "url"
  .ok { tagName := "img",
        attributes := some [("src", url), ("width", .str "32"),
                            ("height", .str "32"), ("border", .str "0")],
        isVoid := true }

/-- The `equation` renderer (raw, unencoded inner content). -/
def equation : RenderBox := fun boxValue _ => do
  let code ← jsGetField boxValue "code"
  .ok { tagName := "code", innerHTML := code }

/-- The `mention` renderer: `nickname ?? name` falls back on nullish
nickname. -/
def mention : RenderBox := fun boxValue enc => do
  let name ← jsGetField boxValue "name"
  let nickname ← jsGetField boxValue "nickname"
  let chosen :=
    match nickname with
    | .undef => name
    | .null => name
    | v => v
  let inner ← callEncode enc chosen
  .ok { tagName := "a",
        attributes := some [("href", .str ("/" ++ jsToString name)),
                            ("target", .str "_blank")],
        innerHTML := .str inner }

/-- The `video` renderer: `src` is spread in only for a truthy `url`. -/
def video : RenderBox := fun boxValue _ => do
  let url ← jsGetField boxValue "url"
  .ok { tagName := "iframe",
        attributes := some (
          (if jsTruthy url then
            [("src", .str ("https://www.youtube.com/embed/" ++
              extractIdFromUrl (jsToString url)))]
           else []) ++
          [("title", .str "YouTube video player"),
           ("frameborder", .str "0"),
           ("allow", .str "accelerometer; autoplay; clipboard-write; encrypted-media; gyroscope; picture-in-picture; web-share"),
           ("referrerpolicy", .str "strict-origin-when-cross-origin"),
           ("allowfullscreen", .str "true"),
           ("style", .str "width: 560px; height: 315px;")]) }

/-- The `twitter` renderer. -/
def twitter : RenderBox := fun boxValue _ => do
  let url ← jsGetField boxValue "url"
  .ok { tagName := "iframe",
        attributes := some (
          (if jsTruthy url then
            [("src", .str ("https://platform.twitter.com/embed/Tweet.html?id=" ++
              extractIdFromUrl (jsToString url)))]
           else []) ++
          [("title", .str "Twitter tweet"),
           ("scrolling", .str "no"),
           ("frameborder", .str "0"),
           ("allowtransparency", .str "true"),
           ("allowfullscreen", .str "true"),
           ("style", .str "width: 550px; height: 300px;")]) }

/-- `getBoxRenderers` from the source: the nine built-in renderers. -/
def getBoxRenderers : BoxRenderers := fun name =>
  if name = "hr" then some hr
  else if name = "image" then some image
  else if name = "file" then some file
  else if name = "codeBlock" then some codeBlock
  else if name = "emoji" then some emoji
  else if name = "equation" then some equation
  else if name = "mention" then some mention
  else if name = "video" then some video
  else if name = "twitter" then some twitter
  else none

/-! ### Conversion driver (`toHTML`, src lines 205-227) -/

/-- The expression
`attributes.value ? JSON.parse(decodeBase64(attributes.value)) : ...`
of src line 216 (the spec's Box Value Resolver): an absent — or empty,
hence falsy — `value` attribute yields the empty object, otherwise the
payload is Base64-decoded and parsed as JSON. -/
def resolveBoxValue (attrs : List (String × String)) : Except JsErr JSVal :=
  match attrs.lookup "value" with
  | some v =>
      if v.isEmpty then .ok (.obj [])
      else do jsonParse (← decodeBase64 v)
  | none => .ok (.obj [])

/-- The body of the `try` block of `toHTML` (src lines 215-218). -/
def boxTryBody (attrs : List (String × String)) (render : RenderBox) :
    Except JsErr String := do
  let boxValue ← resolveBoxValue attrs
  let node ← render boxValue encodeHTMLEntities
  pure (toBoxHTML node)

/-- The replacement (output text, diagnostic logs) for one matched
`<lake-box ...>` span: parse the opening tag, look the `name` attribute
up in the registry (an absent `name` is coerced to the property key
`"undefined"`), and run the `try` block; the `catch` turns any failure
into one log entry and an empty replacement. -/
def boxReplace (renderers : BoxRenderers) (boxOpen : String) :
    String × List JsErr :=
  let attrs := parseAttributes boxOpen
  match renderers ((attrs.lookup "name").getD "undefined") with
  | some render =>
    match boxTryBody attrs render with
    | .ok out => (out, [])
    | .error e => ("", [e])
  | none => ("", [])

/-- The replacement callback of `value.replace(combinedRegex, ...)`.
The `Except` layer is the exception boundary of `toHTML`: an exception
not caught by the `try`/`catch` would surface as `.error`. For a box
match (group 1 defined) the `try`/`catch` converts every `boxTryBody`
failure into a log entry; anchor/focus matches are replaced by the empty
string. -/
def matchCallback (renderers : BoxRenderers) :
    Option String → Except JsErr (String × List JsErr)
  | none => .ok ("", [])
  | some boxOpen =>
    let attrs := parseAttributes boxOpen
    match renderers ((attrs.lookup "name").getD "undefined") with
    | some render =>
      match boxTryBody attrs render with
      | .ok out => .ok (out, [])
      | .error e => .ok ("", [e])
    | none => .ok ("", [])

/-- Case-insensitive literal match; returns the consumed length. -/
def matchLitCI : List Char → List Char → Option Nat
  | [], _ => some 0
  | _ :: _, [] => none
  | l :: ls, c :: cs =>
    if ciEq l c then (matchLitCI ls cs).map (· + 1) else none

/-- The literal head of the box alternative. -/
def lakeBoxLit : List Char := "<lake-box".data

/-- The closing-tag literal. -/
def closeLit : List Char := "</lake-box>".data

/-- `<lake-box[^>]+>`: the literal prefix, at least one non-`>`
character, then `>` (greedy `[^>]+` runs to the first `>`). Returns the
captured opening-tag text and its length. -/
def boxOpenAt (s : List Char) : Option (List Char × Nat) :=
  match matchLitCI lakeBoxLit s with
  | none => none
  | some n =>
    let t := s.drop n
    let body := t.takeWhile (fun c => c ≠ '>')
    if body.isEmpty then none
    else
      match t.drop body.length with
      | '>' :: _ => some (s.take (n + body.length + 1), n + body.length + 1)
      | _ => none

/-- Offset of the first case-insensitive occurrence of `</lake-box>`
(the target of the lazy `[\s\S]*?`). -/
def seekClose : List Char → Option Nat
  | [] => none
  | c :: cs =>
    match matchLitCI closeLit (c :: cs) with
    | some _ => some 0
    | none => (seekClose cs).map (· + 1)

/-- `<anchor\s*\/>` and `<focus\s*\/>`: literal, optional whitespace,
`/>`. -/
def selfCloseAt (lit : List Char) (s : List Char) : Option Nat :=
  match matchLitCI lit s with
  | none => none
  | some n =>
    let t := s.drop n
    let w := t.takeWhile jsWs
    match matchLitCI "/>".data (t.drop w.length) with
    | some m => some (n + w.length + m)
    | none => none

/-- One attempt of `combinedRegex` at the current position, alternatives
in order. Returns group 1 (the opening-tag text, for the box
alternative) and the total consumed length; the box span extends to the
first `</lake-box>` or, failing that, to the end of the input (the `$`
branch of the pattern). -/
def combinedMatchAt (s : List Char) : Option (Option String × Nat) :=
  match boxOpenAt s with
  | some (grp, n) =>
    let r := s.drop n
    let total :=
      match seekClose r with
      | some off => n + off + closeLit.length
      | none => n + r.length
    some (some (String.mk grp), total)
  | none =>
    match selfCloseAt "<anchor".data s with
    | some n => some (none, n)
    | none =>
      match selfCloseAt "<focus".data s with
      | some n => some (none, n)
      | none => none

/-- The `value.replace(combinedRegex, ...)` scan: successive leftmost
matches are replaced through `matchCallback`, all other text is emitted
verbatim. -/
def replaceScanF (renderers : BoxRenderers) :
    Nat → List Char → Except JsErr (String × List JsErr)
  | 0, s => .ok (String.mk s, [])
  | _ + 1, [] => .ok ("", [])
  | fuel + 1, c :: cs =>
    match combinedMatchAt (c :: cs) with
    | some (grp, n) => do
      let (rep, logs) ← matchCallback renderers grp
      let (t, tlogs) ← replaceScanF renderers fuel ((c :: cs).drop n)
      .ok (rep ++ t, logs ++ tlogs)
    | none => do
      let (t, tlogs) ← replaceScanF renderers fuel cs
      .ok (String.singleton c ++ t, tlogs)

/-- `toHTML` from the source with the diagnostic log stream made
explicit; the `.error` branch is unreachable (see
`Lake2Html.toHTML_never_throws`). -/
def toHTMLWithLogs (value : String) (renderers : Option BoxRenderers) :
    String × List JsErr :=
  let rs := renderers.getD getBoxRenderers
  match replaceScanF rs value.data.length value.data with
  | .ok p => p
  | .error _ => ("", [])

/-- `toHTML` from the source (`renderers = renderers ?? getBoxRenderers()`). -/
def toHTML (value : String) (renderers : Option BoxRenderers := none) : String :=
  (toHTMLWithLogs value renderers).1

/-- Does `combinedRegex` match anywhere in `s` (i.e. does `s` contain a
`<lake-box ...>` opening tag, an `<anchor/>` marker or a `<focus/>`
marker in any accepted spelling)? -/
def hasSpecialTag (s : String) : Bool :=
  s.data.tails.any (fun t => (combinedMatchAt t).isSome)

/-! ## Helper lemmas -/

theorem exceptBind_ok {ε α β : Type} (a : α) (f : α → Except ε β) :
    (Except.ok a >>= f : Except ε β) = f a := rfl

theorem exceptBind_error {ε α β : Type} (e : ε) (f : α → Except ε β) :
    (Except.error e >>= f : Except ε β) = Except.error e := rfl

theorem exceptMap_ok {ε α β : Type} (f : α → β) (a : α) :
    (f <$> (Except.ok a : Except ε α)) = Except.ok (f a) := rfl

theorem exceptMap_error {ε α β : Type} (f : α → β) (e : ε) :
    (f <$> (Except.error e : Except ε α)) = Except.error e := rfl

theorem stringJoin_cons (a : String) (l : List String) :
    String.join (a :: l) = a ++ String.join l := by
  rw [String.join_eq, String.join_eq]
  rfl

theorem stringMk_data (s : String) : String.mk s.data = s := rfl

theorem stringMk_append (a b : List Char) :
    String.mk (a ++ b) = String.mk a ++ String.mk b := rfl

/-! ## C4: the entity encoder -/

/-- The replacement table exactly as the specification states it: the
five reserved characters become their named entities, every other
character stays itself. -/
def entityOf (c : Char) : String :=
  if c = '&' then "&amp;"
  else if c = '<' then "&lt;"
  else if c = '>' then "&gt;"
  else if c = quoteChar then "&quot;"
  else if c = '\xa0' then "&nbsp;"
  else String.singleton c

theorem encodeHTMLEntitiesList_pointwise (l : List Char) :
    encodeHTMLEntitiesList l = String.join (l.map entityOf) := by
  induction l with
  | nil => rfl
  | cons c cs ih =>
    rw [List.map_cons, stringJoin_cons, encodeHTMLEntitiesList, ih]
    congr 1
    by_cases h1 : c = '&'
    · subst h1; decide
    · by_cases h2 : c = '<'
      · subst h2; decide
      · by_cases h3 : c = '>'
        · subst h3; decide
        · by_cases h4 : c = quoteChar
          · subst h4; decide
          · by_cases h5 : c = '\xa0'
            · subst h5; decide
            · simp [isEntityChar, entityOf, h1, h2, h3, h4, h5]

/-- C4 (confirmed). For every input string, the entity encoder replaces
each occurrence of `&`, `<`, `>`, `"` and U+00A0 with `&amp;`, `&lt;`,
`&gt;`, `&quot;`, `&nbsp;` respectively, and leaves every other character
(including newlines and other whitespace) unchanged and in place: the
output is the in-order concatenation of the per-character images under
`entityOf`. -/
theorem encodeHTMLEntities_pointwise (s : String) :
    encodeHTMLEntities s = String.join (s.data.map entityOf) :=
  encodeHTMLEntitiesList_pointwise s.data

/-! ## C1: `toHTML` never throws -/

theorem matchCallback_isOk (rs : BoxRenderers) (g : Option String) :
    ∃ p, matchCallback rs g = .ok p := by
  cases g with
  | none => exact ⟨_, rfl⟩
  | some boxOpen =>
    simp only [matchCallback]
    split
    · split
      · exact ⟨_, rfl⟩
      · exact ⟨_, rfl⟩
    · exact ⟨_, rfl⟩

theorem replaceScanF_isOk (rs : BoxRenderers) (fuel : Nat) (s : List Char) :
    ∃ p, replaceScanF rs fuel s = .ok p := by
  induction fuel generalizing s with
  | zero => exact ⟨_, rfl⟩
  | succ fuel ih =>
    cases s with
    | nil => exact ⟨_, rfl⟩
    | cons c cs =>
      rw [replaceScanF]
      cases hm : combinedMatchAt (c :: cs) with
      | none =>
        obtain ⟨p, hp⟩ := ih cs
        rw [hp]
        exact ⟨_, rfl⟩
      | some m =>
        obtain ⟨m1, m2⟩ := m
        obtain ⟨q, hq⟩ := matchCallback_isOk rs m1
        obtain ⟨p, hp⟩ := ih ((c :: cs).drop m2)
        obtain ⟨q1, q2⟩ := q
        obtain ⟨p1, p2⟩ := p
        dsimp only
        rw [hq, hp]
        exact ⟨_, rfl⟩

/-- C1 (confirmed). For every input string, with or without a
caller-supplied renderer registry, the replacement scan returns an ok
result — the `Except` layer is exactly where an exception escaping the
internal `try`/`catch` of `toHTML` would surface, and it never carries an
error — and `toHTML` returns that string. Failures while processing a box
tag (invalid Base64, invalid JSON, a renderer throwing on absent keys)
only ever reach the diagnostic log stream. -/
theorem toHTML_never_throws (value : String) (renderers : Option BoxRenderers) :
    ∃ out logs,
      replaceScanF (renderers.getD getBoxRenderers) value.length value.data
        = .ok (out, logs) ∧
      toHTMLWithLogs value renderers = (out, logs) ∧
      toHTML value renderers = out := by
  obtain ⟨⟨out, logs⟩, h⟩ :=
    replaceScanF_isOk (renderers.getD getBoxRenderers) value.length value.data
  refine ⟨out, logs, h, ?_, ?_⟩
  · simp [toHTMLWithLogs, h]
  · simp [toHTML, toHTMLWithLogs, h]

/-! ## Scan lemmas and C2: identity on plain content -/

theorem toNat_ofNat_of_valid {n : Nat} (h : n < 55296) :
    (Char.ofNat n).toNat = n := by
  rw [Char.ofNat, dif_pos (Or.inl h)]
  rfl

theorem matchLitCI_length {lit s : List Char} {n : Nat}
    (h : matchLitCI lit s = some n) : n = lit.length := by
  induction lit generalizing s n with
  | nil =>
    rw [matchLitCI] at h
    simp only [Option.some.injEq] at h
    simp [← h]
  | cons l ls ih =>
    cases s with
    | nil => exact absurd h (by rw [matchLitCI]; simp)
    | cons c cs =>
      rw [matchLitCI] at h
      split at h
      · cases hm : matchLitCI ls cs with
        | none => rw [hm] at h; simp at h
        | some m =>
          rw [hm] at h
          simp at h
          have := ih hm
          simp [← h, this]
      · simp at h

theorem matchLitCI_head {l : Char} {ls s : List Char} {n : Nat}
    (h : matchLitCI (l :: ls) s = some n) :
    ∃ c cs, s = c :: cs ∧ ciEq l c = true := by
  cases s with
  | nil => exact absurd h (by rw [matchLitCI]; simp)
  | cons c cs =>
    rw [matchLitCI] at h
    split at h
    · exact ⟨c, cs, rfl, by assumption⟩
    · simp at h

theorem ciEq_lt_eq {c : Char} (h : ciEq '<' c = true) : c = '<' := by
  have hlow : lowerAscii c = '<' := by
    have h1 : lowerAscii '<' = '<' := by decide
    rw [ciEq, h1] at h
    exact (beq_iff_eq.mp h).symm
  by_cases hc : 65 ≤ c.toNat ∧ c.toNat ≤ 90
  · exfalso
    rw [lowerAscii, if_pos hc] at hlow
    have := toNat_ofNat_of_valid (n := c.toNat + 32) (by omega)
    rw [hlow] at this
    have h60 : ('<').toNat = 60 := by decide
    omega
  · rw [lowerAscii, if_neg hc] at hlow
    exact hlow

theorem boxOpenAt_facts {s : List Char} {g : List Char} {n : Nat}
    (h : boxOpenAt s = some (g, n)) :
    1 ≤ n ∧ ∃ cs, s = '<' :: cs := by
  unfold boxOpenAt at h
  cases hm : matchLitCI lakeBoxLit s with
  | none => rw [hm] at h; simp at h
  | some m =>
    rw [hm] at h
    dsimp only at h
    split at h
    · simp at h
    · split at h
      · simp only [Option.some.injEq, Prod.mk.injEq] at h
        obtain ⟨hg, hn⟩ := h
        obtain ⟨c, cs, hcs, hci⟩ :=
          matchLitCI_head (show matchLitCI ('<' :: "lake-box".data) s = some m from hm)
        exact ⟨by omega, cs, by rw [hcs, ciEq_lt_eq hci]⟩
      · simp at h

theorem selfCloseAt_mlc {lit s : List Char} {n : Nat}
    (h : selfCloseAt lit s = some n) :
    ∃ m, matchLitCI lit s = some m ∧ m ≤ n := by
  unfold selfCloseAt at h
  cases hm : matchLitCI lit s with
  | none => rw [hm] at h; simp at h
  | some m =>
    rw [hm] at h
    dsimp only at h
    cases hm2 : matchLitCI "/>".data
        ((s.drop m).drop ((s.drop m).takeWhile jsWs).length) with
    | none => rw [hm2] at h; simp at h
    | some m2 =>
      rw [hm2] at h
      simp only [Option.some.injEq] at h
      exact ⟨m, rfl, by omega⟩

theorem combinedMatchAt_facts {s : List Char} {g : Option String} {n : Nat}
    (h : combinedMatchAt s = some (g, n)) :
    1 ≤ n ∧ ∃ cs, s = '<' :: cs := by
  unfold combinedMatchAt at h
  cases hb : boxOpenAt s with
  | some p =>
    obtain ⟨grp, m⟩ := p
    rw [hb] at h
    simp only [Option.some.injEq, Prod.mk.injEq] at h
    obtain ⟨h1, cs, h3⟩ := boxOpenAt_facts hb
    refine ⟨?_, cs, h3⟩
    obtain ⟨hg, hn⟩ := h
    cases hsk : seekClose (s.drop m) with
    | some off =>
      rw [hsk] at hn
      dsimp only at hn
      have hn2 : m + off + closeLit.length = n := hn
      omega
    | none =>
      rw [hsk] at hn
      dsimp only at hn
      have hn2 : m + (s.drop m).length = n := hn
      omega
  | none =>
    rw [hb] at h
    cases ha : selfCloseAt "<anchor".data s with
    | some m =>
      rw [ha] at h
      simp only [Option.some.injEq, Prod.mk.injEq] at h
      obtain ⟨m0, hm0, hle⟩ := selfCloseAt_mlc ha
      have hml : m0 = ("<anchor".data).length := matchLitCI_length hm0
      obtain ⟨c, cs, hcs, hci⟩ :=
        matchLitCI_head (show matchLitCI ('<' :: "anchor".data) s = some m0 from hm0)
      refine ⟨?_, cs, by rw [hcs, ciEq_lt_eq hci]⟩
      obtain ⟨hg, hn⟩ := h
      have hml7 : ("<anchor".data).length = 7 := by decide
      omega
    | none =>
      rw [ha] at h
      cases hf : selfCloseAt "<focus".data s with
      | some m =>
        rw [hf] at h
        simp only [Option.some.injEq, Prod.mk.injEq] at h
        obtain ⟨m0, hm0, hle⟩ := selfCloseAt_mlc hf
        have hml : m0 = ("<focus".data).length := matchLitCI_length hm0
        obtain ⟨c, cs, hcs, hci⟩ :=
          matchLitCI_head (show matchLitCI ('<' :: "focus".data) s = some m0 from hm0)
        refine ⟨?_, cs, by rw [hcs, ciEq_lt_eq hci]⟩
        obtain ⟨hg, hn⟩ := h
        have hml6 : ("<focus".data).length = 6 := by decide
        omega
      | none => rw [hf] at h; simp at h

theorem replaceScanF_id (rs : BoxRenderers) (fuel : Nat) (s : List Char)
    (h : ∀ t, t <:+ s → combinedMatchAt t = none) :
    replaceScanF rs fuel s = .ok (String.mk s, []) := by
  induction fuel generalizing s with
  | zero => rfl
  | succ fuel ih =>
    cases s with
    | nil => rfl
    | cons c cs =>
      rw [replaceScanF, h (c :: cs) List.suffix_rfl]
      have ihcs := ih cs (fun t ht => h t (ht.trans (List.suffix_cons c cs)))
      rw [ihcs]
      rfl

/-- C2 (confirmed). For every input string in which the combined pattern
matches nowhere — no `<lake-box ...>` opening tag, no `<anchor/>` marker
and no `<focus/>` marker in any accepted spelling — `toHTML` returns the
input unchanged, character for character, with or without a
caller-supplied registry. -/
theorem toHTML_identity_on_plain (s : String) (renderers : Option BoxRenderers)
    (h : hasSpecialTag s = false) : toHTML s renderers = s := by
  have hnone : ∀ t, t <:+ s.data → combinedMatchAt t = none := by
    intro t ht
    rw [hasSpecialTag, List.any_eq_false] at h
    have hiso := h t ((List.mem_tails t s.data).mpr ht)
    cases ho : combinedMatchAt t with
    | none => rfl
    | some m => rw [ho] at hiso; simp at hiso
  have hid := replaceScanF_id (renderers.getD getBoxRenderers) s.length s.data hnone
  simp [toHTML, toHTMLWithLogs, hid]

/-- Witness for C2 at a concrete plain input. -/
theorem toHTML_identity_on_plain_witness :
    hasSpecialTag "<p>Normal HTML content</p>" = false ∧
    toHTML "<p>Normal HTML content</p>" none = "<p>Normal HTML content</p>" :=
  ⟨by decide, toHTML_identity_on_plain "<p>Normal HTML content</p>" none (by decide)⟩

/-! ## C6: a missing `value` attribute resolves to the empty box value -/

/-- C6 (confirmed). For every matched opening tag whose parsed attributes
carry a `name` with a registered renderer but no `value` key, the box
value that is resolved and handed to the renderer is the empty mapping:
resolution succeeds (not an error), and the span's replacement is
whatever the renderer produces from that empty mapping — not the empty
string by fiat. -/
theorem missing_value_empty_box
    (boxOpen : String) (rs : BoxRenderers) (n : String) (render : RenderBox)
    (hname : (parseAttributes boxOpen).lookup "name" = some n)
    (hrender : rs n = some render)
    (hnoval : (parseAttributes boxOpen).lookup "value" = none) :
    resolveBoxValue (parseAttributes boxOpen) = .ok (JSVal.obj []) ∧
    boxReplace rs boxOpen =
      (match render (JSVal.obj []) encodeHTMLEntities with
       | .ok node => (toBoxHTML node, [])
       | .error e => ("", [e])) := by
  have hres : resolveBoxValue (parseAttributes boxOpen) = .ok (.obj []) := by
    rw [resolveBoxValue, hnoval]
  refine ⟨hres, ?_⟩
  cases hrb : render (JSVal.obj []) encodeHTMLEntities with
  | ok node =>
    simp [boxReplace, hname, hrender, boxTryBody, hres, hrb,
      exceptBind_ok, exceptMap_ok]
  | error e =>
    simp [boxReplace, hname, hrender, boxTryBody, hres, hrb,
      exceptBind_ok, exceptMap_error]

/-- Witness for C6: an `image` box with no `value` attribute. -/
theorem missing_value_empty_box_witness :
    (parseAttributes "<lake-box name=\"image\">").lookup "name" = some "image" ∧
    (parseAttributes "<lake-box name=\"image\">").lookup "value" = none ∧
    resolveBoxValue (parseAttributes "<lake-box name=\"image\">")
      = .ok (JSVal.obj []) ∧
    boxReplace getBoxRenderers "<lake-box name=\"image\">" =
      (match image (JSVal.obj []) encodeHTMLEntities with
       | .ok node => (toBoxHTML node, [])
       | .error e => ("", [e])) := by
  have h := missing_value_empty_box "<lake-box name=\"image\">" getBoxRenderers
    "image" image (by decide) rfl (by decide)
  exact ⟨by decide, by decide, h.1, h.2⟩

/-! ## C9: the ninth built-in renderer, `mention` -/

/-- C9 (confirmed). The default registry contains — besides the eight box
types of the specification's table — a ninth built-in type `mention`,
which renders an `a` element whose `href` is `/` followed by the box
value's `name`, with `target="_blank"`, and whose inner text is the
entity-encoded `nickname`, falling back to the entity-encoded `name`
when `nickname` is absent. -/
theorem getBoxRenderers_mention_renderer
    (m : List (String × JSVal)) (n : String)
    (hname : m.lookup "name" = some (.str n)) :
    getBoxRenderers "mention" = some mention ∧
    (∀ t, t ∈ ["hr", "image", "file", "codeBlock", "emoji", "equation",
               "mention", "video", "twitter"] → (getBoxRenderers t).isSome) ∧
    (m.lookup "nickname" = none →
      mention (.obj m) encodeHTMLEntities = .ok
        { tagName := "a",
          attributes := some [("href", .str ("/" ++ n)),
                              ("target", .str "_blank")],
          innerHTML := .str (encodeHTMLEntities n) }) ∧
    (∀ nk : String, m.lookup "nickname" = some (.str nk) →
      mention (.obj m) encodeHTMLEntities = .ok
        { tagName := "a",
          attributes := some [("href", .str ("/" ++ n)),
                              ("target", .str "_blank")],
          innerHTML := .str (encodeHTMLEntities nk) }) := by
  refine ⟨rfl, by decide, ?_, ?_⟩
  · intro hnk
    simp [mention, jsGetField, hname, hnk, callEncode, jsToString,
      exceptBind_ok, Option.getD]
  · intro nk hnk
    simp [mention, jsGetField, hname, hnk, callEncode, jsToString,
      exceptBind_ok, Option.getD]

/-- Witness for C9 at a concrete box value. -/
theorem getBoxRenderers_mention_renderer_witness :
    [("name", JSVal.str "luoluo")].lookup "name" = some (.str "luoluo") ∧
    (getBoxRenderers "mention" = some mention ∧
     (∀ t, t ∈ ["hr", "image", "file", "codeBlock", "emoji", "equation",
                "mention", "video", "twitter"] → (getBoxRenderers t).isSome) ∧
     ([("name", JSVal.str "luoluo")].lookup "nickname" = none →
       mention (.obj [("name", JSVal.str "luoluo")]) encodeHTMLEntities = .ok
         { tagName := "a",
           attributes := some [("href", .str ("/" ++ "luoluo")),
                               ("target", .str "_blank")],
           innerHTML := .str (encodeHTMLEntities "luoluo") }) ∧
     (∀ nk : String,
       [("name", JSVal.str "luoluo")].lookup "nickname" = some (.str nk) →
       mention (.obj [("name", JSVal.str "luoluo")]) encodeHTMLEntities = .ok
         { tagName := "a",
           attributes := some [("href", .str ("/" ++ "luoluo")),
                               ("target", .str "_blank")],
           innerHTML := .str (encodeHTMLEntities nk) })) :=
  ⟨rfl, getBoxRenderers_mention_renderer [("name", JSVal.str "luoluo")]
    "luoluo" rfl⟩

/-! ## C10: the `image` renderer's `src` on a missing `url` -/

theorem intercalateGo_append (s : String) (as : List String) :
    ∀ (acc extra : String),
      String.intercalate.go (acc ++ extra) s as = acc ++ String.intercalate.go extra s as := by
  induction as with
  | nil => intro acc extra; rfl
  | cons a as ih =>
    intro acc extra
    rw [String.intercalate.go, String.intercalate.go]
    have hassoc : acc ++ extra ++ s ++ a = acc ++ (extra ++ s ++ a) := by
      simp [String.append_assoc]
    rw [hassoc]
    exact ih acc (extra ++ s ++ a)

theorem stringIntercalate_cons₂ (sep a b : String) (l : List String) :
    String.intercalate sep (a :: b :: l) =
      a ++ sep ++ String.intercalate sep (b :: l) := by
  show String.intercalate.go a sep (b :: l) = _
  rw [String.intercalate.go]
  have h := intercalateGo_append sep l (a ++ sep) b
  rw [h]
  rfl

theorem serializeAttributes_cons₂ (p q : String × JSVal)
    (l : List (String × JSVal)) :
    serializeAttributes (p :: q :: l) =
      (p.1 ++ "=" ++ String.singleton quoteChar ++
        encodeHTMLEntities (jsToString p.2) ++ String.singleton quoteChar) ++
      " " ++ serializeAttributes (q :: l) := by
  rw [serializeAttributes, serializeAttributes, List.map_cons, List.map_cons,
    stringIntercalate_cons₂]

/-- Counterexample for C10 as stated: the `src` attribute emitted for an
`image` box without `url` is the literal text `undefined`, which has nine
characters, not six. -/
theorem image_src_six_char_counterexample :
    toHTML "<lake-box name=\"image\"></lake-box>" none
      = "<img src=\"undefined\" border=\"0\" />" ∧
    ("undefined" : String).length = 9 ∧
    ¬ (("undefined" : String).length = 6) := by
  refine ⟨by decide, by decide, by decide⟩

/-- C10 as amended (the literal `undefined` is nine characters long, not
six). For every `image` box value lacking the `url` key — including the
empty box value produced by a missing `value` attribute — the rendered
`img` element's attribute list starts with `src` bound to `undefined`,
which serialises as the literal text `src="undefined"`; `src` is always
present, unlike `width`, `height` and `alt`. -/
theorem image_missing_url_src_undefined
    (m : List (String × JSVal)) (hurl : m.lookup "url" = none) :
    getBoxRenderers "image" = some image ∧
    ∃ node rest,
      image (.obj m) encodeHTMLEntities = .ok node ∧
      node.isVoid = true ∧
      (∃ tail, node.attributes = some (("src", JSVal.undef) :: tail)) ∧
      toBoxHTML node = "<img src=\"undefined\" " ++ rest := by
  refine ⟨rfl, ?_⟩
  have h1 : jsGetField (.obj m) "url" = .ok .undef := by simp [jsGetField, hurl]
  have hw : jsGetField (.obj m) "width" = .ok ((m.lookup "width").getD .undef) := rfl
  have hh : jsGetField (.obj m) "height" = .ok ((m.lookup "height").getD .undef) := rfl
  have hc : jsGetField (.obj m) "caption" = .ok ((m.lookup "caption").getD .undef) := rfl
  set w := (m.lookup "width").getD JSVal.undef with hwdef
  set hei := (m.lookup "height").getD JSVal.undef with hhdef
  set cap := (m.lookup "caption").getD JSVal.undef with hcdef
  set tail := (if jsTruthy w then [("width", w)] else []) ++
      ((if jsTruthy hei then [("height", hei)] else []) ++
        ((if jsTruthy cap then [("alt", cap)] else []) ++
          [("border", JSVal.str "0")])) with htail
  have himg : image (.obj m) encodeHTMLEntities = .ok
      { tagName := "img", attributes := some (("src", JSVal.undef) :: tail),
        isVoid := true } := by
    simp only [image, h1, hw, hh, hc, exceptBind_ok, ← hwdef, ← hhdef, ← hcdef,
      List.singleton_append, List.cons_append, List.append_assoc,
      List.nil_append, ← htail]
  -- the tail is never empty: it ends with the `border` attribute
  have htail_ne : tail ≠ [] := by
    rw [htail]
    simp
  cases htc : tail with
  | nil => exact absurd htc htail_ne
  | cons q l' =>
    refine ⟨_, serializeAttributes (q :: l') ++ " />", himg, rfl,
      ⟨tail, rfl⟩, ?_⟩
    rw [toBoxHTML]
    simp only
    rw [htc, serializeAttributes_cons₂]
    have henc : encodeHTMLEntities (jsToString JSVal.undef) = "undefined" := by
      decide
    rw [henc]
    apply String.ext
    simp [String.append_assoc]
    decide

/-- Witness for the amended C10 at the empty box value. -/
theorem image_missing_url_src_undefined_witness :
    ([] : List (String × JSVal)).lookup "url" = none ∧
    (getBoxRenderers "image" = some image ∧
     ∃ node rest,
       image (.obj []) encodeHTMLEntities = .ok node ∧
       node.isVoid = true ∧
       (∃ tail, node.attributes = some (("src", JSVal.undef) :: tail)) ∧
       toBoxHTML node = "<img src=\"undefined\" " ++ rest) :=
  ⟨rfl, image_missing_url_src_undefined [] rfl⟩

/-! ## C8: attribute-key character set and lower-casing -/

theorem lowerAscii_toNat_of_upper {c : Char}
    (hc : 65 ≤ c.toNat ∧ c.toNat ≤ 90) :
    (lowerAscii c).toNat = c.toNat + 32 := by
  rw [lowerAscii, if_pos hc]
  exact toNat_ofNat_of_valid (by omega)

theorem lowerAscii_keyClass {c : Char} (h : isKeyCharQuoted c = true) :
    isKeyCharQuoted (lowerAscii c) = true ∧
    lowerAscii (lowerAscii c) = lowerAscii c := by
  by_cases hc : 65 ≤ c.toNat ∧ c.toNat ≤ 90
  · have ht := lowerAscii_toNat_of_upper hc
    constructor
    · simp only [isKeyCharQuoted, isKeyCharPlain, isWordChar, Bool.or_eq_true,
        Bool.and_eq_true, decide_eq_true_eq]
      left; left; left; left; left; right
      omega
    · rw [lowerAscii, if_neg (by omega)]
  · rw [lowerAscii, if_neg hc]
    exact ⟨h, by rw [lowerAscii, if_neg hc]⟩

theorem attrAltA_keyClass {t k v : List Char} {n : Nat}
    (h : attrAltA t = some (k, v, n)) :
    ∀ c ∈ k, isKeyCharQuoted c = true := by
  rw [attrAltA] at h
  split at h
  · simp at h
  · split at h
    · dsimp only at h
      split at h
      · simp at h
      · split at h
        · simp only [Option.some.injEq, Prod.mk.injEq] at h
          intro c hc
          have hck : c ∈ t.takeWhile isKeyCharPlain := by rw [h.1]; exact hc
          have := List.mem_takeWhile_imp hck
          simp [isKeyCharQuoted, this]
        · simp at h
    · simp at h

theorem attrAltB_keyClass {t k v : List Char} {n : Nat}
    (h : attrAltB t = some (k, v, n)) :
    ∀ c ∈ k, isKeyCharQuoted c = true := by
  rw [attrAltB] at h
  split at h
  · simp at h
  · split at h
    · split at h
      · dsimp only at h
        split at h
        · split at h
          · simp only [Option.some.injEq, Prod.mk.injEq] at h
            intro c hc
            have hck : c ∈ t.takeWhile isKeyCharQuoted := by rw [h.1]; exact hc
            exact List.mem_takeWhile_imp hck
          · simp at h
        · simp at h
      · simp at h
    · simp at h

theorem attrAltC_keyClass {t k v : List Char} {n : Nat}
    (h : attrAltC t = some (k, v, n)) :
    ∀ c ∈ k, isKeyCharQuoted c = true := by
  rw [attrAltC] at h
  split at h
  · simp at h
  · split at h
    · split at h
      · dsimp only at h
        split at h
        · split at h
          · simp only [Option.some.injEq, Prod.mk.injEq] at h
            intro c hc
            have hck : c ∈ t.takeWhile isKeyCharQuoted := by rw [h.1]; exact hc
            exact List.mem_takeWhile_imp hck
          · simp at h
        · simp at h
      · simp at h
    · simp at h

theorem attrMatchAt_keyClass {s k v : List Char} {n : Nat}
    (h : attrMatchAt s = some (k, v, n)) :
    ∀ c ∈ k, isKeyCharQuoted c = true := by
  rw [attrMatchAt] at h
  dsimp only at h
  split at h
  · simp at h
  · cases hA : attrAltA (s.drop (s.takeWhile jsWs).length) with
    | some pA =>
      obtain ⟨kA, vA, nA⟩ := pA
      rw [hA] at h
      simp only [Option.some.injEq, Prod.mk.injEq] at h
      obtain ⟨h1, h2, h3⟩ := h
      subst h1; subst h2
      exact attrAltA_keyClass hA
    | none =>
      rw [hA] at h
      cases hB : attrAltB (s.drop (s.takeWhile jsWs).length) with
      | some pB =>
        obtain ⟨kB, vB, nB⟩ := pB
        rw [hB] at h
        simp only [Option.some.injEq, Prod.mk.injEq] at h
        obtain ⟨h1, h2, h3⟩ := h
        subst h1; subst h2
        exact attrAltB_keyClass hB
      | none =>
        rw [hB] at h
        cases hC : attrAltC (s.drop (s.takeWhile jsWs).length) with
        | some pC =>
          obtain ⟨kC, vC, nC⟩ := pC
          rw [hC] at h
          simp only [Option.some.injEq, Prod.mk.injEq] at h
          obtain ⟨h1, h2, h3⟩ := h
          subst h1; subst h2
          exact attrAltC_keyClass hC
        | none => rw [hC] at h; simp at h

theorem mem_upsertAttr {acc : List (String × String)} {k v : String}
    {p : String × String} (hp : p ∈ upsertAttr acc k v) :
    p ∈ acc ∨ p.1 = k := by
  rw [upsertAttr] at hp
  split at hp
  · obtain ⟨q, hq, hpq⟩ := List.mem_map.mp hp
    by_cases hqk : q.1 == k
    · rw [if_pos hqk] at hpq
      right
      rw [← hpq]
    · rw [if_neg hqk] at hpq
      left
      rw [← hpq]
      exact hq
  · rcases List.mem_append.mp hp with h | h
    · exact Or.inl h
    · right
      simp at h
      rw [h]

theorem attrScanF_zero (s : List Char) (acc : List (String × String)) :
    attrScanF 0 s acc = acc := rfl

theorem attrScanF_nil (fuel : Nat) (acc : List (String × String)) :
    attrScanF (fuel + 1) [] acc = acc := rfl

theorem attrScanF_cons (fuel : Nat) (c : Char) (cs : List Char)
    (acc : List (String × String)) :
    attrScanF (fuel + 1) (c :: cs) acc =
      match attrMatchAt (c :: cs) with
      | some (k, v, n) =>
          attrScanF fuel ((c :: cs).drop n)
            (upsertAttr acc (String.mk (lowerAsciiList k)) (String.mk v))
      | none => attrScanF fuel cs acc := rfl

theorem attrScanF_keys (fuel : Nat) (s : List Char)
    (acc : List (String × String))
    (hacc : ∀ p ∈ acc, ∀ c ∈ (p.1 : String).data,
      isKeyCharQuoted c = true ∧ lowerAscii c = c) :
    ∀ p ∈ attrScanF fuel s acc, ∀ c ∈ (p.1 : String).data,
      isKeyCharQuoted c = true ∧ lowerAscii c = c := by
  induction fuel generalizing s acc with
  | zero => rw [attrScanF_zero]; exact hacc
  | succ fuel ih =>
    cases s with
    | nil => rw [attrScanF_nil]; exact hacc
    | cons c0 cs =>
      rw [attrScanF_cons]
      cases hm : attrMatchAt (c0 :: cs) with
      | none => exact ih cs acc hacc
      | some r =>
        obtain ⟨k, v, n⟩ := r
        apply ih
        intro p hp c hc
        rcases mem_upsertAttr hp with hmem | hkey
        · exact hacc p hmem c hc
        · rw [hkey] at hc
          -- c is a lowered key character
          obtain ⟨c0', hc0', hlow⟩ := List.mem_map.mp hc
          have hclass := attrMatchAt_keyClass hm c0' hc0'
          have := lowerAscii_keyClass hclass
          rw [← hlow]
          exact this

/-- Counterexample for C8 as stated: in the double-quoted form the
source's key class also admits the double quote, so a key containing `"`
is captured. -/
theorem attr_key_charset_counterexample :
    parseAttributes "<x a\"b=\"v\">" = [("a\"b", "v")] ∧
    ¬ (∀ p ∈ parseAttributes "<x a\"b=\"v\">", ∀ c ∈ (p.1 : String).data,
        isKeyCharPlain c = true) := by
  exact ⟨by decide, by decide⟩

/-- C8 as amended (the quoted forms additionally admit `"` in keys). For
every opening-tag text, every key in the attribute map returned by
`parseAttributes` consists only of word, hyphen, colon or double-quote
characters and is lower-cased (each key character is a fixed point of
ASCII lower-casing). -/
theorem parseAttributes_keys (tag : String) :
    ∀ p ∈ parseAttributes tag, ∀ c ∈ (p.1 : String).data,
      isKeyCharQuoted c = true ∧ lowerAscii c = c := by
  apply attrScanF_keys
  intro p hp
  simp at hp

/-- Witness for the amended C8 at a concrete tag and key. -/
theorem parseAttributes_keys_witness :
    ("a", "v") ∈ parseAttributes "<x A=\"v\">" ∧
    'a' ∈ (("a" : String)).data ∧
    (isKeyCharQuoted 'a' = true ∧ lowerAscii 'a' = 'a') :=
  ⟨by decide, by decide,
    parseAttributes_keys "<x A=\"v\">" ("a", "v") (by decide) 'a' (by decide)⟩

/-! ## Driver-scan infrastructure for C3 and C7 -/

theorem replaceScanF_fuel (rs : BoxRenderers) :
    ∀ f1 f2 s, s.length ≤ f1 → s.length ≤ f2 →
      replaceScanF rs f1 s = replaceScanF rs f2 s := by
  intro f1
  induction f1 with
  | zero =>
    intro f2 s h1 h2
    have hs : s = [] := List.eq_nil_of_length_eq_zero (by omega)
    subst hs
    cases f2 with
    | zero => rfl
    | succ g => rfl
  | succ f1 ih =>
    intro f2 s h1 h2
    cases s with
    | nil =>
      cases f2 with
      | zero => rfl
      | succ g => rfl
    | cons c cs =>
      cases f2 with
      | zero => simp at h2
      | succ g =>
        rw [replaceScanF, replaceScanF]
        cases hm : combinedMatchAt (c :: cs) with
        | none =>
          dsimp only
          rw [ih g cs (by simp at h1; omega) (by simp at h2; omega)]
        | some p =>
          obtain ⟨grp, n⟩ := p
          have hpos := (combinedMatchAt_facts hm).1
          have hlen : ((c :: cs).drop n).length ≤ f1 := by
            simp at h1 ⊢
            omega
          have hlen2 : ((c :: cs).drop n).length ≤ g := by
            simp at h2 ⊢
            omega
          dsimp only
          rw [ih g ((c :: cs).drop n) hlen hlen2]

/-- The scan at its canonical fuel (the input length). -/
def replaceScan (rs : BoxRenderers) (s : List Char) :
    Except JsErr (String × List JsErr) :=
  replaceScanF rs s.length s

theorem replaceScan_nil (rs : BoxRenderers) : replaceScan rs [] = .ok ("", []) := rfl

theorem replaceScan_match {c : Char} {cs : List Char} {grp : Option String}
    {n : Nat} (rs : BoxRenderers)
    (hm : combinedMatchAt (c :: cs) = some (grp, n)) :
    replaceScan rs (c :: cs) = (do
      let (rep, logs) ← matchCallback rs grp
      let (t, tlogs) ← replaceScan rs ((c :: cs).drop n)
      Except.ok (rep ++ t, logs ++ tlogs)) := by
  have hpos := (combinedMatchAt_facts hm).1
  show replaceScanF rs (c :: cs).length (c :: cs) = _
  have hcons : (c :: cs).length = cs.length + 1 := rfl
  rw [hcons, replaceScanF, hm]
  dsimp only
  simp only [replaceScanF_fuel rs cs.length ((c :: cs).drop n).length
    ((c :: cs).drop n) (by simp; omega) (le_refl _)]
  rfl

theorem replaceScan_nomatch {c : Char} {cs : List Char} (rs : BoxRenderers)
    (hm : combinedMatchAt (c :: cs) = none) :
    replaceScan rs (c :: cs) = (do
      let (t, tlogs) ← replaceScan rs cs
      Except.ok (String.singleton c ++ t, tlogs)) := by
  show replaceScanF rs (c :: cs).length (c :: cs) = _
  have hcons : (c :: cs).length = cs.length + 1 := rfl
  rw [hcons, replaceScanF, hm]
  dsimp only
  rfl

theorem replaceScan_isOk (rs : BoxRenderers) (s : List Char) :
    ∃ p, replaceScan rs s = .ok p :=
  replaceScanF_isOk rs s.length s

theorem toHTMLWithLogs_eq_scan (value : String) (rs : Option BoxRenderers) :
    toHTMLWithLogs value rs =
      match replaceScan (rs.getD getBoxRenderers) value.data with
      | .ok p => p
      | .error _ => ("", []) := rfl

theorem matchCallback_box (rs : BoxRenderers) (g : String) :
    matchCallback rs (some g) = .ok (boxReplace rs g) := by
  rw [matchCallback, boxReplace]
  split
  · split
    · rfl
    · rfl
  · rfl

/-- Scanning past a prefix that contains no `<`: every match starts with
`<`, so the prefix is emitted verbatim. -/
theorem replaceScan_ltFree (rs : BoxRenderers) (pre rest : List Char)
    (hpre : ∀ c ∈ pre, c ≠ '<') :
    replaceScan rs (pre ++ rest) = (do
      let (t, tlogs) ← replaceScan rs rest
      Except.ok (String.mk pre ++ t, tlogs)) := by
  induction pre with
  | nil =>
    obtain ⟨⟨t, tl⟩, h⟩ := replaceScan_isOk rs rest
    rw [List.nil_append, h]
    rfl
  | cons c pre ih =>
    have hc : c ≠ '<' := hpre c (List.mem_cons_self c pre)
    have hnone : combinedMatchAt (c :: (pre ++ rest)) = none := by
      cases ho : combinedMatchAt (c :: (pre ++ rest)) with
      | none => rfl
      | some p =>
        obtain ⟨g, n⟩ := p
        obtain ⟨-, cs, hcs⟩ := combinedMatchAt_facts ho
        injection hcs with h1 h2
        exact absurd h1 hc
    rw [List.cons_append, replaceScan_nomatch rs hnone,
      ih (fun d hd => hpre d (List.mem_cons_of_mem c hd))]
    obtain ⟨⟨t, tl⟩, h⟩ := replaceScan_isOk rs rest
    rw [h]
    show Except.ok (String.singleton c ++ (String.mk pre ++ t), tl) =
      Except.ok (String.mk (c :: pre) ++ t, tl)
    rw [← String.append_assoc]
    rfl

/-! ## C7: unterminated box tags -/

theorem matchLitCI_self (lit r : List Char) :
    matchLitCI lit (lit ++ r) = some lit.length := by
  induction lit with
  | nil => rfl
  | cons l ls ih =>
    rw [List.cons_append, matchLitCI, if_pos (by simp [ciEq]), ih]
    rfl

theorem boxOpenAt_lit (mid rest : List Char) (hne : mid ≠ [])
    (hmid : ∀ c ∈ mid, c ≠ '>') :
    boxOpenAt (lakeBoxLit ++ (mid ++ '>' :: rest)) =
      some (lakeBoxLit ++ (mid ++ ['>']), lakeBoxLit.length + mid.length + 1) := by
  rw [boxOpenAt, matchLitCI_self]
  dsimp only
  rw [List.drop_left]
  have htw : (mid ++ '>' :: rest).takeWhile (fun c => decide (c ≠ '>')) = mid := by
    rw [List.takeWhile_append_of_pos (by intro a ha; simpa using hmid a ha),
      List.takeWhile_cons_of_neg (by simp), List.append_nil]
  rw [htw]
  rw [if_neg (by simpa using hne)]
  rw [List.drop_left]
  have htake : (lakeBoxLit ++ (mid ++ '>' :: rest)).take
      (lakeBoxLit.length + mid.length + 1) = lakeBoxLit ++ (mid ++ ['>']) := by
    have hre : lakeBoxLit ++ (mid ++ '>' :: rest) =
        (lakeBoxLit ++ (mid ++ ['>'])) ++ rest := by
      simp [List.append_assoc]
    rw [hre]
    exact List.take_left' (by simp; omega)
  rw [htake]
  rfl

theorem seekClose_none (s : List Char)
    (h : ∀ t, t <:+ s → matchLitCI closeLit t = none) : seekClose s = none := by
  induction s with
  | nil => rfl
  | cons c cs ih =>
    rw [seekClose, h (c :: cs) List.suffix_rfl,
      ih (fun t ht => h t (ht.trans (List.suffix_cons c cs)))]
    rfl

/-- Does the text contain a (case-insensitive) `</lake-box>` closing
tag? -/
def hasCloseTag (s : String) : Bool :=
  s.data.tails.any (fun t => (matchLitCI closeLit t).isSome)

theorem combinedMatchAt_unterminated (mid trailing : List Char)
    (hne : mid ≠ []) (hmid : ∀ c ∈ mid, c ≠ '>')
    (htrail : ∀ t, t <:+ trailing → matchLitCI closeLit t = none) :
    combinedMatchAt (lakeBoxLit ++ (mid ++ '>' :: trailing)) =
      some (some (String.mk (lakeBoxLit ++ (mid ++ ['>']))),
        (lakeBoxLit ++ (mid ++ '>' :: trailing)).length) := by
  rw [combinedMatchAt, boxOpenAt_lit mid trailing hne hmid]
  dsimp only
  have hdrop : (lakeBoxLit ++ (mid ++ '>' :: trailing)).drop
      (lakeBoxLit.length + mid.length + 1) = trailing := by
    have hre : lakeBoxLit ++ (mid ++ '>' :: trailing) =
        (lakeBoxLit ++ (mid ++ ['>'])) ++ trailing := by
      simp [List.append_assoc]
    rw [hre]
    exact List.drop_left' (by simp; omega)
  rw [hdrop, seekClose_none trailing htrail]
  dsimp only
  have hlen : (lakeBoxLit ++ (mid ++ '>' :: trailing)).length =
      lakeBoxLit.length + mid.length + 1 + trailing.length := by
    simp [List.length_append, List.length_cons]
    omega
  rw [hlen]

/-- C7 (confirmed). For every document built of a `<`-free prefix, a
`<lake-box ...>` opening tag and trailing text containing no
`</lake-box>` closing tag, the span from the opening tag to the end of
the document is matched and replaced by the conversion computed from the
opening tag's attributes alone, and the trailing content is discarded,
not echoed. -/
theorem unterminated_box_converted
    (pre mid trailing : String) (rs : BoxRenderers)
    (hpre : ∀ c ∈ pre.data, c ≠ '<')
    (hne : mid ≠ "")
    (hmid : ∀ c ∈ mid.data, c ≠ '>')
    (htrail : hasCloseTag trailing = false) :
    toHTMLWithLogs (pre ++ "<lake-box" ++ mid ++ ">" ++ trailing) (some rs) =
      (pre ++ (boxReplace rs ("<lake-box" ++ mid ++ ">")).1,
       (boxReplace rs ("<lake-box" ++ mid ++ ">")).2) := by
  have htr : ∀ t, t <:+ trailing.data → matchLitCI closeLit t = none := by
    intro t ht
    rw [hasCloseTag, List.any_eq_false] at htrail
    have := htrail t ((List.mem_tails t trailing.data).mpr ht)
    cases hmt : matchLitCI closeLit t with
    | none => rfl
    | some m => rw [hmt] at this; simp at this
  have hdata : (pre ++ "<lake-box" ++ mid ++ ">" ++ trailing).data =
      pre.data ++ (lakeBoxLit ++ (mid.data ++ '>' :: trailing.data)) := by
    simp [lakeBoxLit, List.append_assoc]
  have hmidne : mid.data ≠ [] := by
    intro hcon
    exact hne (by cases mid with | mk l => simp at hcon; simp [hcon])
  have hcm := combinedMatchAt_unterminated mid.data trailing.data hmidne hmid htr
  -- scan: skip the prefix, then one match consumes everything
  have hscan : replaceScan rs
      (lakeBoxLit ++ (mid.data ++ '>' :: trailing.data)) =
      .ok ((boxReplace rs ("<lake-box" ++ mid ++ ">")).1,
           (boxReplace rs ("<lake-box" ++ mid ++ ">")).2) := by
    have hcons : ∃ cs, lakeBoxLit ++ (mid.data ++ '>' :: trailing.data) =
        '<' :: cs := ⟨_, rfl⟩
    obtain ⟨cs, hcs⟩ := hcons
    rw [hcs] at hcm ⊢
    rw [replaceScan_match rs hcm]
    have hdropall : ('<' :: cs).drop ('<' :: cs).length = [] := by
      simp
    rw [hdropall, matchCallback_box, replaceScan_nil]
    have hgrp : String.mk (lakeBoxLit ++ (mid.data ++ ['>'])) =
        "<lake-box" ++ mid ++ ">" := by
      cases mid with
      | mk l =>
        rw [stringMk_append, stringMk_append]
        rfl
    rw [hgrp]
    cases hbr : boxReplace rs ("<lake-box" ++ mid ++ ">") with
    | mk b1 b2 => simp [exceptBind_ok]
  rw [toHTMLWithLogs_eq_scan]
  dsimp only [Option.getD]
  rw [hdata, replaceScan_ltFree rs pre.data _ hpre, hscan]
  dsimp only
  rfl

/-- Witness for C7: an unterminated `hr` box followed by trailing text. -/
theorem unterminated_box_converted_witness :
    (∀ c ∈ ("a" : String).data, c ≠ '<') ∧
    (" name=\"hr\"" : String) ≠ "" ∧
    (∀ c ∈ (" name=\"hr\"" : String).data, c ≠ '>') ∧
    hasCloseTag "xyz" = false ∧
    toHTMLWithLogs ("a" ++ "<lake-box" ++ " name=\"hr\"" ++ ">" ++ "xyz")
        (some getBoxRenderers) =
      ("a" ++ (boxReplace getBoxRenderers
          ("<lake-box" ++ " name=\"hr\"" ++ ">")).1,
       (boxReplace getBoxRenderers ("<lake-box" ++ " name=\"hr\"" ++ ">")).2) :=
  ⟨by decide, by decide, by decide, by decide,
   unterminated_box_converted "a" " name=\"hr\"" "xyz" getBoxRenderers
     (by decide) (by decide) (by decide) (by decide)⟩

/-! ## Attribute extraction for `name`/`value` tags (C3, C5) -/

theorem isKeyCharPlain_toNat {c : Char} (h : isKeyCharPlain c = true) :
    (65 ≤ c.toNat ∧ c.toNat ≤ 90) ∨ (97 ≤ c.toNat ∧ c.toNat ≤ 122) ∨
    (48 ≤ c.toNat ∧ c.toNat ≤ 57) ∨ c.toNat = 95 ∨ c.toNat = 45 ∨
    c.toNat = 58 := by
  simp only [isKeyCharPlain, isWordChar, Bool.or_eq_true, Bool.and_eq_true,
    decide_eq_true_eq, beq_iff_eq] at h
  rcases h with ((((h1 | h2) | h3) | h4) | h5) | h6
  · exact Or.inl h1
  · exact Or.inr (Or.inl h2)
  · exact Or.inr (Or.inr (Or.inl h3))
  · subst h4; exact Or.inr (Or.inr (Or.inr (Or.inl (by decide))))
  · subst h5; exact Or.inr (Or.inr (Or.inr (Or.inr (Or.inl (by decide)))))
  · subst h6; exact Or.inr (Or.inr (Or.inr (Or.inr (Or.inr (by decide)))))

theorem jsWs_toNat {c : Char} (h : jsWs c = true) :
    c.toNat = 9 ∨ c.toNat = 10 ∨ c.toNat = 11 ∨ c.toNat = 12 ∨
    c.toNat = 13 ∨ c.toNat = 32 ∨ c.toNat = 160 ∨ c.toNat = 5760 ∨
    (8192 ≤ c.toNat ∧ c.toNat ≤ 8202) ∨ c.toNat = 8232 ∨ c.toNat = 8233 ∨
    c.toNat = 8239 ∨ c.toNat = 8287 ∨ c.toNat = 12288 ∨ c.toNat = 65279 := by
  simp only [jsWs, Bool.or_eq_true, Bool.and_eq_true, decide_eq_true_eq] at h
  omega

theorem keyPlain_not_ws {c : Char} (h : isKeyCharPlain c = true) :
    jsWs c = false := by
  cases hws : jsWs c with
  | false => rfl
  | true =>
    exfalso
    have h1 := isKeyCharPlain_toNat h
    have h2 := jsWs_toNat hws
    omega

theorem keyPlain_is_quoted {c : Char} (h : isKeyCharPlain c = true) :
    isKeyCharQuoted c = true := by
  simp [isKeyCharQuoted, h]

/-- The first alternative at `key="value"`: the unquoted-value run is
empty (it may not start with a quote), so the alternative fails. -/
theorem attrAltA_dquoted_fails (key val : List Char) (la : Char)
    (rest : List Char)
    (hkeyPlain : ∀ c ∈ key, isKeyCharPlain c = true) :
    attrAltA (key ++ '=' :: quoteChar :: (val ++ quoteChar :: la :: rest))
      = none := by
  rw [attrAltA]
  have hk : (key ++ '=' :: quoteChar :: (val ++ quoteChar :: la :: rest)).takeWhile
      isKeyCharPlain = key := by
    rw [List.takeWhile_append_of_pos hkeyPlain,
      List.takeWhile_cons_of_neg (by decide), List.append_nil]
  rw [hk]
  split
  · rfl
  · rw [List.drop_left' rfl]
    rfl

/-- The second alternative succeeds at `key="value"` followed by a
lookahead character. -/
theorem attrAltB_dquoted (key val : List Char) (la : Char) (rest : List Char)
    (hkey_ne : key ≠ [])
    (hkeyPlain : ∀ c ∈ key, isKeyCharPlain c = true)
    (hval : ∀ c ∈ val, c ≠ quoteChar)
    (hla : lookaheadOk la = true) :
    attrAltB (key ++ '=' :: quoteChar :: (val ++ quoteChar :: la :: rest))
      = some (key, val, key.length + 2 + val.length + 1) := by
  rw [attrAltB]
  have hk : (key ++ '=' :: quoteChar :: (val ++ quoteChar :: la :: rest)).takeWhile
      isKeyCharQuoted = key := by
    rw [List.takeWhile_append_of_pos
        (fun c hc => keyPlain_is_quoted (hkeyPlain c hc)),
      List.takeWhile_cons_of_neg (by decide), List.append_nil]
  rw [hk]
  rw [if_neg (by simpa using hkey_ne)]
  rw [List.drop_left' rfl]
  dsimp only
  rw [if_pos ⟨rfl, rfl⟩]
  have hv : (val ++ quoteChar :: la :: rest).takeWhile
      (fun c => decide (c ≠ quoteChar)) = val := by
    rw [List.takeWhile_append_of_pos (by intro a ha; simpa using hval a ha),
      List.takeWhile_cons_of_neg (by simp), List.append_nil]
  rw [hv]
  rw [List.drop_left' rfl]
  dsimp only
  rw [if_pos ⟨rfl, hla⟩]

/-- One whole attribute-regex match at ` key="value"` followed by a
lookahead character. -/
theorem attrMatchAt_spaceDquoted (key val : List Char) (la : Char)
    (rest : List Char)
    (hkey_ne : key ≠ [])
    (hkeyPlain : ∀ c ∈ key, isKeyCharPlain c = true)
    (hval : ∀ c ∈ val, c ≠ quoteChar)
    (hla : lookaheadOk la = true) :
    attrMatchAt (' ' :: (key ++ '=' :: quoteChar :: (val ++ quoteChar :: la :: rest)))
      = some (key, val, key.length + val.length + 4) := by
  rw [attrMatchAt]
  have hw : (' ' :: (key ++ '=' :: quoteChar :: (val ++ quoteChar :: la :: rest))).takeWhile
      jsWs = [' '] := by
    rw [List.takeWhile_cons_of_pos (by decide)]
    cases key with
    | nil => exact absurd rfl hkey_ne
    | cons k0 key' =>
      rw [List.cons_append, List.takeWhile_cons_of_neg]
      have := keyPlain_not_ws (hkeyPlain k0 (List.mem_cons_self k0 key'))
      simp [this]
  rw [hw]
  rw [if_neg (by decide)]
  dsimp only
  have hd : List.drop ([' '] : List Char).length
      (' ' :: (key ++ '=' :: quoteChar :: (val ++ quoteChar :: la :: rest))) =
      key ++ '=' :: quoteChar :: (val ++ quoteChar :: la :: rest) := rfl
  rw [hd]
  rw [attrAltA_dquoted_fails key val la rest hkeyPlain,
    attrAltB_dquoted key val la rest hkey_ne hkeyPlain hval hla]
  dsimp only
  congr 2
  simp
  omega

theorem attrMatchAt_pos {s k v : List Char} {n : Nat}
    (h : attrMatchAt s = some (k, v, n)) : 1 ≤ n := by
  rw [attrMatchAt] at h
  split at h
  · simp at h
  · rename_i hne
    dsimp only at h
    have hw : 1 ≤ (s.takeWhile jsWs).length := by
      cases hList : s.takeWhile jsWs with
      | nil => rw [hList] at hne; simp at hne
      | cons a b => simp [hList]
    cases hA : attrAltA (s.drop (s.takeWhile jsWs).length) with
    | some pA =>
      obtain ⟨kA, vA, nA⟩ := pA
      rw [hA] at h
      simp only [Option.some.injEq, Prod.mk.injEq] at h
      omega
    | none =>
      rw [hA] at h
      cases hB : attrAltB (s.drop (s.takeWhile jsWs).length) with
      | some pB =>
        obtain ⟨kB, vB, nB⟩ := pB
        rw [hB] at h
        simp only [Option.some.injEq, Prod.mk.injEq] at h
        omega
      | none =>
        rw [hB] at h
        cases hC : attrAltC (s.drop (s.takeWhile jsWs).length) with
        | some pC =>
          obtain ⟨kC, vC, nC⟩ := pC
          rw [hC] at h
          simp only [Option.some.injEq, Prod.mk.injEq] at h
          omega
        | none => rw [hC] at h; simp at h

theorem attrScanF_fuel :
    ∀ f1 f2 (s : List Char) acc, s.length ≤ f1 → s.length ≤ f2 →
      attrScanF f1 s acc = attrScanF f2 s acc := by
  intro f1
  induction f1 with
  | zero =>
    intro f2 s acc h1 h2
    have hs : s = [] := List.eq_nil_of_length_eq_zero (by omega)
    subst hs
    cases f2 with
    | zero => rfl
    | succ g => rfl
  | succ f1 ih =>
    intro f2 s acc h1 h2
    cases s with
    | nil =>
      cases f2 with
      | zero => rfl
      | succ g => rfl
    | cons c cs =>
      cases f2 with
      | zero => simp at h2
      | succ g =>
        rw [attrScanF_cons, attrScanF_cons]
        cases hm : attrMatchAt (c :: cs) with
        | none =>
          exact ih g cs acc (by simp at h1; omega) (by simp at h2; omega)
        | some r =>
          obtain ⟨k, v, n⟩ := r
          have hpos := attrMatchAt_pos hm
          exact ih g ((c :: cs).drop n) _ (by simp at h1 ⊢; omega)
            (by simp at h2 ⊢; omega)

/-- The attribute exec loop at its canonical fuel. -/
def attrScan (s : List Char) (acc : List (String × String)) :
    List (String × String) :=
  attrScanF s.length s acc

theorem parseAttributes_eq_attrScan (tag : String) :
    parseAttributes tag = attrScan tag.data [] := rfl

theorem attrScan_nil (acc : List (String × String)) : attrScan [] acc = acc := rfl

theorem attrScan_match {c : Char} {cs k v : List Char} {n : Nat}
    (acc : List (String × String))
    (hm : attrMatchAt (c :: cs) = some (k, v, n)) :
    attrScan (c :: cs) acc = attrScan ((c :: cs).drop n)
      (upsertAttr acc (String.mk (lowerAsciiList k)) (String.mk v)) := by
  have hpos := attrMatchAt_pos hm
  show attrScanF (cs.length + 1) (c :: cs) acc = _
  rw [attrScanF_cons, hm]
  exact attrScanF_fuel cs.length ((c :: cs).drop n).length ((c :: cs).drop n) _
    (by simp; omega) (le_refl _)

theorem attrScan_nomatch {c : Char} {cs : List Char}
    (acc : List (String × String)) (hm : attrMatchAt (c :: cs) = none) :
    attrScan (c :: cs) acc = attrScan cs acc := by
  show attrScanF (cs.length + 1) (c :: cs) acc = _
  rw [attrScanF_cons, hm]
  rfl

theorem attrMatchAt_none_head {c : Char} {cs : List Char}
    (h : jsWs c = false) : attrMatchAt (c :: cs) = none := by
  rw [attrMatchAt, List.takeWhile_cons_of_neg (by simp [h])]
  rfl

theorem attrScan_skip (l rest : List Char) (acc : List (String × String))
    (hl : ∀ c ∈ l, jsWs c = false) :
    attrScan (l ++ rest) acc = attrScan rest acc := by
  induction l with
  | nil => rfl
  | cons c l ih =>
    rw [List.cons_append,
      attrScan_nomatch acc (attrMatchAt_none_head
        (hl c (List.mem_cons_self c l))),
      ih (fun d hd => hl d (List.mem_cons_of_mem c hd))]

/-- The attribute map of `<lake-box name="…" value="…">`: exactly the
`name` and `value` attributes, in scan order, with their literal
values. -/
theorem parseAttributes_nameValue (n B : String)
    (hn : ∀ c ∈ n.data, c ≠ quoteChar)
    (hB : ∀ c ∈ B.data, c ≠ quoteChar) :
    parseAttributes ("<lake-box name=\"" ++ n ++ "\" value=\"" ++ B ++ "\">")
      = [("name", n), ("value", B)] := by
  have h1 : ("<lake-box name=\"" : String).data =
      "<lake-box".data ++ (' ' :: ("name".data ++ ['=', quoteChar])) := by decide
  have h2 : ("\" value=\"" : String).data =
      quoteChar :: (' ' :: ("value".data ++ ['=', quoteChar])) := by decide
  have h3 : ("\">" : String).data = [quoteChar, '>'] := by decide
  have hdata : ("<lake-box name=\"" ++ n ++ "\" value=\"" ++ B ++ "\">").data
      = "<lake-box".data ++ (' ' :: ("name".data ++ '=' :: quoteChar ::
          (n.data ++ quoteChar :: (' ' :: ("value".data ++ '=' :: quoteChar ::
          (B.data ++ quoteChar :: '>' :: [])))))) := by
    have hq : ('"' = quoteChar) := by decide
    simp [String.data_append, h1, h2, h3, List.append_assoc]
    exact hq
  rw [parseAttributes_eq_attrScan, hdata]
  rw [attrScan_skip "<lake-box".data _ [] (by decide)]
  rw [attrScan_match []
    (attrMatchAt_spaceDquoted "name".data n.data ' '
      ("value".data ++ '=' :: quoteChar :: (B.data ++ quoteChar :: '>' :: []))
      (by decide) (by decide) (by intro c hc; exact hn c hc) (by decide))]
  have hdrop1 : (' ' :: ("name".data ++ '=' :: quoteChar ::
      (n.data ++ quoteChar :: (' ' :: ("value".data ++ '=' :: quoteChar ::
      (B.data ++ quoteChar :: '>' :: [])))))).drop
      ("name".data.length + n.data.length + 4) =
      ' ' :: ("value".data ++ '=' :: quoteChar ::
        (B.data ++ quoteChar :: '>' :: [])) := by
    have hsplit : (' ' :: ("name".data ++ '=' :: quoteChar ::
        (n.data ++ quoteChar :: (' ' :: ("value".data ++ '=' :: quoteChar ::
        (B.data ++ quoteChar :: '>' :: [])))))) =
        (' ' :: ("name".data ++ '=' :: quoteChar :: (n.data ++ [quoteChar]))) ++
        (' ' :: ("value".data ++ '=' :: quoteChar ::
          (B.data ++ quoteChar :: '>' :: []))) := by
      simp [List.append_assoc]
    rw [hsplit]
    exact List.drop_left' (by simp; omega)
  rw [hdrop1]
  have hacc1 : upsertAttr [] (String.mk (lowerAsciiList "name".data))
      (String.mk n.data) = [("name", n)] := by
    have hk : String.mk (lowerAsciiList "name".data) = "name" := by decide
    rw [hk, stringMk_data, upsertAttr]
    simp
  rw [hacc1]
  rw [attrScan_match [("name", n)]
    (attrMatchAt_spaceDquoted "value".data B.data '>' []
      (by decide) (by decide) (by intro c hc; exact hB c hc) (by decide))]
  have hdrop2 : (' ' :: ("value".data ++ '=' :: quoteChar ::
      (B.data ++ quoteChar :: '>' :: []))).drop
      ("value".data.length + B.data.length + 4) = ['>'] := by
    have hsplit : (' ' :: ("value".data ++ '=' :: quoteChar ::
        (B.data ++ quoteChar :: '>' :: []))) =
        (' ' :: ("value".data ++ '=' :: quoteChar :: (B.data ++ [quoteChar]))) ++
        ['>'] := by
      simp [List.append_assoc]
    rw [hsplit]
    exact List.drop_left' (by simp; omega)
  rw [hdrop2]
  have hacc2 : upsertAttr [("name", n)]
      (String.mk (lowerAsciiList "value".data)) (String.mk B.data) =
      [("name", n), ("value", B)] := by
    have hk : String.mk (lowerAsciiList "value".data) = "value" := by decide
    rw [hk, stringMk_data, upsertAttr]
    simp
  rw [hacc2]
  rw [show (['>'] : List Char) = ['>'] ++ [] from by simp,
    attrScan_skip ['>'] [] _ (by decide), attrScan_nil]

/-! ## C3: malformed box payloads -/

theorem seekClose_here (rest : List Char) : seekClose (closeLit ++ rest) = some 0 := by
  have h : closeLit ++ rest = '<' :: ("/lake-box>".data ++ rest) := rfl
  have h2 : matchLitCI closeLit ('<' :: ("/lake-box>".data ++ rest)) =
      some closeLit.length := by
    rw [← h]
    exact matchLitCI_self closeLit rest
  rw [h, seekClose, h2]

theorem combinedMatchAt_closed (mid rest : List Char)
    (hne : mid ≠ []) (hmid : ∀ c ∈ mid, c ≠ '>') :
    combinedMatchAt (lakeBoxLit ++ (mid ++ '>' :: (closeLit ++ rest))) =
      some (some (String.mk (lakeBoxLit ++ (mid ++ ['>']))),
        lakeBoxLit.length + mid.length + 1 + closeLit.length) := by
  rw [combinedMatchAt, boxOpenAt_lit mid (closeLit ++ rest) hne hmid]
  dsimp only
  have hdrop : (lakeBoxLit ++ (mid ++ '>' :: (closeLit ++ rest))).drop
      (lakeBoxLit.length + mid.length + 1) = closeLit ++ rest := by
    have hre : lakeBoxLit ++ (mid ++ '>' :: (closeLit ++ rest)) =
        (lakeBoxLit ++ (mid ++ ['>'])) ++ (closeLit ++ rest) := by
      simp [List.append_assoc]
    rw [hre]
    exact List.drop_left' (by simp; omega)
  rw [hdrop, seekClose_here]

theorem stringEmptyAppend (t : String) : "" ++ t = t := by
  cases t with
  | mk l =>
    show String.mk ([] : List Char) ++ String.mk l = String.mk l
    rw [← stringMk_append, List.nil_append]

/-- C3 (confirmed). A document made of a `<`-free prefix, a well-formed
`<lake-box name="…" value="…"></lake-box>` span whose name has a
registered renderer but whose value fails Base64 decoding or JSON
parsing, and arbitrary trailing text: the tag's span becomes the empty
string, exactly one diagnostic (the decode/parse failure) is logged, and
the rest of the document converts exactly as it would with the span
absent. -/
theorem toHTML_malformed_value
    (pre n B post : String) (rs : BoxRenderers) (render : RenderBox) (e : JsErr)
    (hpre : ∀ c ∈ pre.data, c ≠ '<')
    (hnq : ∀ c ∈ n.data, c ≠ quoteChar) (hngt : ∀ c ∈ n.data, c ≠ '>')
    (hBq : ∀ c ∈ B.data, c ≠ quoteChar) (hBgt : ∀ c ∈ B.data, c ≠ '>')
    (hBne : B.isEmpty = false)
    (hname : rs n = some render)
    (hmal : (decodeBase64 B >>= jsonParse) = .error e) :
    toHTMLWithLogs
        (pre ++ "<lake-box name=\"" ++ n ++ "\" value=\"" ++ B ++
          "\"></lake-box>" ++ post) (some rs) =
      (pre ++ (toHTMLWithLogs post (some rs)).1,
       e :: (toHTMLWithLogs post (some rs)).2) ∧
    toHTML (pre ++ "<lake-box name=\"" ++ n ++ "\" value=\"" ++ B ++
        "\"></lake-box>" ++ post) (some rs) =
      toHTML (pre ++ post) (some rs) := by
  obtain ⟨⟨t, tl⟩, hps⟩ := replaceScan_isOk rs post.data
  have hpost : toHTMLWithLogs post (some rs) = (t, tl) := by
    rw [toHTMLWithLogs_eq_scan]
    dsimp only [Option.getD]
    rw [hps]
  have h1 : ("<lake-box name=\"" : String).data =
      lakeBoxLit ++ (' ' :: ("name".data ++ ['=', quoteChar])) := by decide
  have h2 : ("\" value=\"" : String).data =
      quoteChar :: ' ' :: ("value".data ++ ['=', quoteChar]) := by decide
  have h3 : ("\"></lake-box>" : String).data =
      quoteChar :: '>' :: closeLit := by decide
  have hq : ('"' = quoteChar) := by decide
  have hM : (' ' :: ("name".data ++ '=' :: quoteChar ::
      (n.data ++ quoteChar :: (' ' :: ("value".data ++ '=' :: quoteChar ::
      (B.data ++ [quoteChar])))))) ≠ ([] : List Char) := by
    intro hcon
    exact List.noConfusion hcon
  have hMgt : ∀ c ∈ (' ' :: ("name".data ++ '=' :: quoteChar ::
      (n.data ++ quoteChar :: (' ' :: ("value".data ++ '=' :: quoteChar ::
      (B.data ++ [quoteChar])))))), c ≠ '>' := by
    refine List.forall_mem_cons.mpr ⟨by decide, ?_⟩
    refine List.forall_mem_append.mpr ⟨by decide, ?_⟩
    refine List.forall_mem_cons.mpr ⟨by decide, ?_⟩
    refine List.forall_mem_cons.mpr ⟨by decide, ?_⟩
    refine List.forall_mem_append.mpr ⟨hngt, ?_⟩
    refine List.forall_mem_cons.mpr ⟨by decide, ?_⟩
    refine List.forall_mem_cons.mpr ⟨by decide, ?_⟩
    refine List.forall_mem_append.mpr ⟨by decide, ?_⟩
    refine List.forall_mem_cons.mpr ⟨by decide, ?_⟩
    refine List.forall_mem_cons.mpr ⟨by decide, ?_⟩
    exact List.forall_mem_append.mpr ⟨hBgt, by decide⟩
  have htag : ("<lake-box name=\"" ++ n ++ "\" value=\"" ++ B ++ "\">").data =
      lakeBoxLit ++ ((' ' :: ("name".data ++ '=' :: quoteChar ::
        (n.data ++ quoteChar :: (' ' :: ("value".data ++ '=' :: quoteChar ::
        (B.data ++ [quoteChar])))))) ++ ['>']) := by
    have h3b : ("\">" : String).data = [quoteChar, '>'] := by decide
    rw [String.data_append, String.data_append, String.data_append,
      String.data_append]
    rw [h1, h2, h3b]
    simp [List.append_assoc, List.cons_append]
  have hgrp : String.mk (lakeBoxLit ++ ((' ' :: ("name".data ++ '=' :: quoteChar ::
      (n.data ++ quoteChar :: (' ' :: ("value".data ++ '=' :: quoteChar ::
      (B.data ++ [quoteChar])))))) ++ ['>'])) =
      "<lake-box name=\"" ++ n ++ "\" value=\"" ++ B ++ "\">" := by
    rw [← htag]
  have hdata : (pre ++ "<lake-box name=\"" ++ n ++ "\" value=\"" ++ B ++
      "\"></lake-box>" ++ post).data =
      pre.data ++ (lakeBoxLit ++ ((' ' :: ("name".data ++ '=' :: quoteChar ::
        (n.data ++ quoteChar :: (' ' :: ("value".data ++ '=' :: quoteChar ::
        (B.data ++ [quoteChar])))))) ++ '>' :: (closeLit ++ post.data))) := by
    rw [String.data_append, String.data_append, String.data_append,
      String.data_append, String.data_append, String.data_append]
    rw [h1, h2, h3]
    simp [List.append_assoc, List.cons_append]
  have hres : resolveBoxValue [("name", n), ("value", B)] = .error e := by
    have hlookv : (([("name", n), ("value", B)] : List (String × String)).lookup
        "value") = some B := by
      simp [List.lookup]
    rw [resolveBoxValue, hlookv]
    simp only [hBne, Bool.false_eq_true, if_false]
    exact hmal
  have hbr : boxReplace rs ("<lake-box name=\"" ++ n ++ "\" value=\"" ++ B ++
      "\">") = ("", [e]) := by
    rw [boxReplace, parseAttributes_nameValue n B hnq hBq]
    have hlookn : (([("name", n), ("value", B)] : List (String × String)).lookup
        "name") = some n := by
      simp [List.lookup]
    rw [hlookn]
    dsimp only [Option.getD]
    rw [hname]
    have htb : boxTryBody [("name", n), ("value", B)] render = .error e := by
      rw [boxTryBody, hres]
      rfl
    dsimp only
    rw [htb]
  have hscan : replaceScan rs (lakeBoxLit ++ ((' ' :: ("name".data ++ '=' ::
      quoteChar :: (n.data ++ quoteChar :: (' ' :: ("value".data ++ '=' ::
      quoteChar :: (B.data ++ [quoteChar])))))) ++ '>' :: (closeLit ++
      post.data))) = .ok (t, e :: tl) := by
    have hcm := combinedMatchAt_closed (' ' :: ("name".data ++ '=' :: quoteChar ::
      (n.data ++ quoteChar :: (' ' :: ("value".data ++ '=' :: quoteChar ::
      (B.data ++ [quoteChar])))))) post.data hM hMgt
    have hcons : ∃ cs, lakeBoxLit ++ ((' ' :: ("name".data ++ '=' :: quoteChar ::
        (n.data ++ quoteChar :: (' ' :: ("value".data ++ '=' :: quoteChar ::
        (B.data ++ [quoteChar])))))) ++ '>' :: (closeLit ++ post.data)) =
        '<' :: cs := ⟨_, rfl⟩
    obtain ⟨cs, hcs⟩ := hcons
    rw [hcs] at hcm ⊢
    rw [replaceScan_match rs hcm]
    have hdrop : ('<' :: cs).drop (lakeBoxLit.length + (' ' :: ("name".data ++
        '=' :: quoteChar :: (n.data ++ quoteChar :: (' ' :: ("value".data ++
        '=' :: quoteChar :: (B.data ++ [quoteChar])))))).length + 1 +
        closeLit.length) = post.data := by
      rw [← hcs]
      have hre : lakeBoxLit ++ ((' ' :: ("name".data ++ '=' :: quoteChar ::
          (n.data ++ quoteChar :: (' ' :: ("value".data ++ '=' :: quoteChar ::
          (B.data ++ [quoteChar])))))) ++ '>' :: (closeLit ++ post.data)) =
          (lakeBoxLit ++ ((' ' :: ("name".data ++ '=' :: quoteChar ::
          (n.data ++ quoteChar :: (' ' :: ("value".data ++ '=' :: quoteChar ::
          (B.data ++ [quoteChar])))))) ++ '>' :: closeLit)) ++ post.data := by
        simp [List.append_assoc]
      rw [hre]
      exact List.drop_left' (by simp; omega)
    rw [hdrop, matchCallback_box, hgrp, hbr, hps]
    simp [exceptBind_ok, stringEmptyAppend]
  have hmain : toHTMLWithLogs (pre ++ "<lake-box name=\"" ++ n ++ "\" value=\"" ++
      B ++ "\"></lake-box>" ++ post) (some rs) = (pre ++ t, e :: tl) := by
    rw [toHTMLWithLogs_eq_scan]
    dsimp only [Option.getD]
    rw [hdata, replaceScan_ltFree rs pre.data _ hpre, hscan]
    simp [exceptBind_ok, stringMk_data]
  have hrest : toHTMLWithLogs (pre ++ post) (some rs) = (pre ++ t, tl) := by
    rw [toHTMLWithLogs_eq_scan]
    dsimp only [Option.getD]
    have hd : (pre ++ post).data = pre.data ++ post.data := by
      simp [String.data_append]
    rw [hd, replaceScan_ltFree rs pre.data _ hpre, hps]
    simp [exceptBind_ok, stringMk_data]
  constructor
  · rw [hmain, hpost]
  · rw [toHTML, toHTML, hmain, hrest]

/-- Witness for C3: an `hr` box whose value is not valid Base64, between
a plain prefix and suffix. -/
theorem toHTML_malformed_value_witness :
    (∀ c ∈ ("a" : String).data, c ≠ '<') ∧
    (∀ c ∈ ("hr" : String).data, c ≠ quoteChar) ∧
    (∀ c ∈ ("hr" : String).data, c ≠ '>') ∧
    (∀ c ∈ ("invalid-base64!" : String).data, c ≠ quoteChar) ∧
    (∀ c ∈ ("invalid-base64!" : String).data, c ≠ '>') ∧
    ("invalid-base64!" : String).isEmpty = false ∧
    getBoxRenderers "hr" = some hr ∧
    (decodeBase64 "invalid-base64!" >>= jsonParse) =
      .error JsErr.invalidCharacter ∧
    toHTMLWithLogs
        ("a" ++ "<lake-box name=\"" ++ "hr" ++ "\" value=\"" ++
          "invalid-base64!" ++ "\"></lake-box>" ++ "b")
        (some getBoxRenderers) =
      ("a" ++ (toHTMLWithLogs "b" (some getBoxRenderers)).1,
       JsErr.invalidCharacter ::
         (toHTMLWithLogs "b" (some getBoxRenderers)).2) ∧
    toHTML ("a" ++ "<lake-box name=\"" ++ "hr" ++ "\" value=\"" ++
        "invalid-base64!" ++ "\"></lake-box>" ++ "b")
        (some getBoxRenderers) =
      toHTML ("a" ++ "b") (some getBoxRenderers) := by
  have h := toHTML_malformed_value "a" "hr" "invalid-base64!" "b"
    getBoxRenderers hr JsErr.invalidCharacter
    (by decide) (by decide) (by decide) (by decide) (by decide) (by decide)
    (by rfl) (by rfl)
  exact ⟨by decide, by decide, by decide, by decide, by decide, by decide,
    by rfl, by rfl, h.1, h.2⟩

/-! ## C5: the attribute-transport round-trip -/

theorem charToNat_lt (c : Char) : c.toNat < 1114112 := by
  rcases c.valid with h | ⟨h1, h2⟩
  · show c.val.toNat < 1114112
    omega
  · show c.val.toNat < 1114112
    omega

theorem charNotSurrogate (c : Char) : ¬ (55296 ≤ c.toNat ∧ c.toNat ≤ 57343) := by
  rcases c.valid with h | ⟨h1, h2⟩
  · show ¬ (55296 ≤ c.val.toNat ∧ c.val.toNat ≤ 57343)
    omega
  · show ¬ (55296 ≤ c.val.toNat ∧ c.val.toNat ≤ 57343)
    omega

theorem b64Char_facts : ∀ n, n < 64 → asciiWs (b64Char n) = false ∧
    b64Char n ≠ '=' ∧ b64Char n ≠ quoteChar ∧ b64Char n ≠ '>' ∧
    b64Index (b64Char n) = some n := by decide

theorem b64Sextets_lt :
    ∀ k (bytes : List Nat), bytes.length ≤ k → (∀ b ∈ bytes, b < 256) →
      ∀ s ∈ b64Sextets bytes, s < 64 := by
  intro k
  induction k with
  | zero =>
    intro bytes hlen h
    have hb : bytes = [] := List.eq_nil_of_length_eq_zero (by omega)
    subst hb
    intro s hs
    simp [b64Sextets] at hs
  | succ k ih =>
    intro bytes hlen h
    match bytes with
    | [] => intro s hs; simp [b64Sextets] at hs
    | [x] =>
      have hx := h x (by simp)
      intro s hs
      simp [b64Sextets] at hs
      rcases hs with hs | hs <;> omega
    | [x, y] =>
      have hx := h x (by simp)
      have hy := h y (by simp)
      intro s hs
      simp [b64Sextets] at hs
      rcases hs with hs | hs | hs <;> omega
    | x :: y :: z :: rest =>
      have hx := h x (by simp)
      have hy := h y (by simp)
      have hz := h z (by simp)
      intro s hs
      simp [b64Sextets] at hs
      rcases hs with hs | hs | hs | hs | hs
      · omega
      · omega
      · omega
      · omega
      · exact ih rest (by simp at hlen; omega)
          (fun b hb => h b (by simp [hb])) s hs

theorem b64DecodeSextets_encode :
    ∀ k (bytes : List Nat), bytes.length ≤ k → (∀ b ∈ bytes, b < 256) →
      b64DecodeSextets (b64Sextets bytes) = bytes := by
  intro k
  induction k with
  | zero =>
    intro bytes hlen h
    have hb : bytes = [] := List.eq_nil_of_length_eq_zero (by omega)
    subst hb
    rfl
  | succ k ih =>
    intro bytes hlen h
    match bytes with
    | [] => rfl
    | [x] =>
      have hx := h x (by simp)
      simp [b64Sextets, b64DecodeSextets]
      omega
    | [x, y] =>
      have hx := h x (by simp)
      have hy := h y (by simp)
      simp [b64Sextets, b64DecodeSextets]
      omega
    | x :: y :: z :: rest =>
      have hx := h x (by simp)
      have hy := h y (by simp)
      have hz := h z (by simp)
      have hrec := ih rest (by simp at hlen; omega)
        (fun b hb => h b (by simp [hb]))
      simp [b64Sextets, b64DecodeSextets, hrec]
      omega

theorem b64Pad_shape :
    ∀ k (bytes : List Nat), bytes.length ≤ k →
      b64Pad bytes = [] ∨ b64Pad bytes = ['='] ∨ b64Pad bytes = ['=', '='] := by
  intro k
  induction k with
  | zero =>
    intro bytes hlen
    have hb : bytes = [] := List.eq_nil_of_length_eq_zero (by omega)
    subst hb
    left; rfl
  | succ k ih =>
    intro bytes hlen
    match bytes with
    | [] => left; rfl
    | [x] => right; right; rfl
    | [x, y] => right; left; rfl
    | x :: y :: z :: rest =>
      have : b64Pad (x :: y :: z :: rest) = b64Pad rest := rfl
      rw [this]
      exact ih rest (by simp at hlen; omega)

theorem b64_len_mod :
    ∀ k (bytes : List Nat), bytes.length ≤ k →
      ((b64Sextets bytes).length + (b64Pad bytes).length) % 4 = 0 := by
  intro k
  induction k with
  | zero =>
    intro bytes hlen
    have hb : bytes = [] := List.eq_nil_of_length_eq_zero (by omega)
    subst hb
    rfl
  | succ k ih =>
    intro bytes hlen
    match bytes with
    | [] => rfl
    | [x] => simp [b64Sextets, b64Pad]
    | [x, y] => simp [b64Sextets, b64Pad]
    | x :: y :: z :: rest =>
      have hrec := ih rest (by simp at hlen; omega)
      simp [b64Sextets, b64Pad] at hrec ⊢
      omega

theorem b64Sextets_len_mod :
    ∀ k (bytes : List Nat), bytes.length ≤ k →
      (b64Sextets bytes).length % 4 ≠ 1 := by
  intro k
  induction k with
  | zero =>
    intro bytes hlen
    have hb : bytes = [] := List.eq_nil_of_length_eq_zero (by omega)
    subst hb
    simp [b64Sextets]
  | succ k ih =>
    intro bytes hlen
    match bytes with
    | [] => simp [b64Sextets]
    | [x] => simp [b64Sextets]
    | [x, y] => simp [b64Sextets]
    | x :: y :: z :: rest =>
      have hrec := ih rest (by simp at hlen; omega)
      simp [b64Sextets] at hrec ⊢
      omega

theorem b64Sextets_ne_nil (bytes : List Nat) (h : bytes ≠ []) :
    b64Sextets bytes ≠ [] := by
  match bytes with
  | [] => exact absurd rfl h
  | [x] => simp [b64Sextets]
  | [x, y] => simp [b64Sextets]
  | x :: y :: z :: rest => simp [b64Sextets]

theorem mapM_b64 (l : List Nat) (h : ∀ s ∈ l, s < 64) :
    (l.map b64Char).mapM b64Index = some l := by
  induction l with
  | nil => rfl
  | cons a l ih =>
    have ha := (b64Char_facts a (h a (List.mem_cons_self a l))).2.2.2.2
    rw [List.map_cons, List.mapM_cons, ha,
      ih (fun s hs => h s (List.mem_cons_of_mem a hs))]
    rfl

theorem atob_roundtrip (bytes : List Nat) (h : ∀ b ∈ bytes, b < 256) :
    atobBytes (base64Encode bytes) = .ok bytes := by
  have hslt : ∀ s ∈ b64Sextets bytes, s < 64 :=
    b64Sextets_lt bytes.length bytes (le_refl _) h
  have hdata : (base64Encode bytes).data =
      (b64Sextets bytes).map b64Char ++ b64Pad bytes := rfl
  rw [atobBytes, hdata]
  have hfil : ((b64Sextets bytes).map b64Char ++ b64Pad bytes).filter
      (fun c => !asciiWs c) = (b64Sextets bytes).map b64Char ++ b64Pad bytes := by
    apply List.filter_eq_self.mpr
    intro a ha
    rcases List.mem_append.mp ha with ha | ha
    · obtain ⟨s, hs, rfl⟩ := List.mem_map.mp ha
      have := (b64Char_facts s (hslt s hs)).1
      simp [this]
    · rcases b64Pad_shape bytes.length bytes (le_refl _) with hp | hp | hp <;>
        rw [hp] at ha
      · simp at ha
      · simp at ha
        subst ha
        decide
      · simp at ha
        subst ha
        decide
  rw [hfil]
  have hlen0 : ((b64Sextets bytes).map b64Char ++ b64Pad bytes).length % 4 = 0 := by
    rw [List.length_append, List.length_map]
    exact b64_len_mod bytes.length bytes (le_refl _)
  rw [if_pos hlen0]
  have hlast : ¬ ((b64Sextets bytes).map b64Char).getLast? = some '=' := by
    intro hcon
    have hmem := List.mem_of_mem_getLast? hcon
    obtain ⟨s, hs, heq⟩ := List.mem_map.mp hmem
    exact absurd heq ((b64Char_facts s (hslt s hs)).2.1)
  have hs1 : stripPad1 ((b64Sextets bytes).map b64Char) =
      (b64Sextets bytes).map b64Char := by
    rw [stripPad1, if_neg hlast]
  have hconcat : ∀ l : List Char, stripPad1 (l ++ ['=']) = l := by
    intro l
    rw [stripPad1, if_pos (List.getLast?_concat l), List.dropLast_concat]
  have hstrip : stripPad ((b64Sextets bytes).map b64Char ++ b64Pad bytes) =
      (b64Sextets bytes).map b64Char := by
    rcases b64Pad_shape bytes.length bytes (le_refl _) with hp | hp | hp <;> rw [hp]
    · rw [List.append_nil, stripPad, hs1, hs1]
    · rw [stripPad, hconcat, hs1]
    · have hre : (b64Sextets bytes).map b64Char ++ ['=', '='] =
          ((b64Sextets bytes).map b64Char ++ ['=']) ++ ['='] := by
        simp
      rw [hre, stripPad, hconcat, hconcat]
  rw [hstrip]
  have hlen1 : ¬ ((b64Sextets bytes).map b64Char).length % 4 = 1 := by
    rw [List.length_map]
    exact b64Sextets_len_mod bytes.length bytes (le_refl _)
  rw [if_neg hlen1]
  rw [mapM_b64 (b64Sextets bytes) hslt]
  show Except.ok (b64DecodeSextets (b64Sextets bytes)) = Except.ok bytes
  rw [b64DecodeSextets_encode bytes.length bytes (le_refl _) h]

theorem utf8EncodeChar_lt (c : Char) : ∀ b ∈ utf8EncodeChar c, b < 256 := by
  have hlt := charToNat_lt c
  rw [utf8EncodeChar]
  by_cases h1 : c.toNat < 128
  · simp [h1]
    omega
  · by_cases h2 : c.toNat < 2048
    · simp [h1, h2]
      omega
    · by_cases h3 : c.toNat < 65536
      · simp [h1, h2, h3]
        omega
      · simp [h1, h2, h3]
        omega

theorem utf8Encode_lt (cs : List Char) : ∀ b ∈ utf8Encode cs, b < 256 := by
  induction cs with
  | nil => intro b hb; simp [utf8Encode] at hb
  | cons c cs ih =>
    intro b hb
    rw [utf8Encode] at hb
    rcases List.mem_append.mp hb with hb | hb
    · exact utf8EncodeChar_lt c b hb
    · exact ih b hb

theorem utf8DecodeReplF_nil (f : Nat) : utf8DecodeReplF f [] = [] := by
  cases f with
  | zero => rfl
  | succ g => rfl

theorem utf8Encode_len_ge (cs : List Char) :
    cs.length ≤ (utf8Encode cs).length := by
  induction cs with
  | nil => simp [utf8Encode]
  | cons c cs ih =>
    rw [utf8Encode, List.length_append]
    have h1 : 1 ≤ (utf8EncodeChar c).length := by
      rw [utf8EncodeChar]
      by_cases h1 : c.toNat < 128
      · simp [h1]
      · by_cases h2 : c.toNat < 2048
        · simp [h1, h2]
        · by_cases h3 : c.toNat < 65536
          · simp [h1, h2, h3]
          · simp [h1, h2, h3]
    simp only [List.length_cons]
    omega

theorem utf8DecodeStep (c : Char) (r : List Nat) (f : Nat) :
    utf8DecodeReplF (f + 1) (utf8EncodeChar c ++ r) = c :: utf8DecodeReplF f r := by
  have hlt := charToNat_lt c
  have hsur := charNotSurrogate c
  have hsur2 : c.toNat < 55296 ∨ 57343 < c.toNat := by omega
  by_cases h1 : c.toNat < 128
  · have he : utf8EncodeChar c = [c.toNat] := by
      rw [utf8EncodeChar]
      simp [h1]
    rw [he, List.singleton_append, utf8DecodeReplF.eq_def]
    dsimp only
    rw [if_pos h1, Char.ofNat_toNat]
  · by_cases h2 : c.toNat < 2048
    · have he : utf8EncodeChar c = [192 + c.toNat / 64, 128 + c.toNat % 64] := by
        rw [utf8EncodeChar]
        simp [h1, h2]
      rw [he, List.cons_append, List.singleton_append, utf8DecodeReplF]
      rw [if_neg (by omega : ¬ (192 + c.toNat / 64 < 128))]
      rw [if_pos (by omega : 194 ≤ 192 + c.toNat / 64 ∧ 192 + c.toNat / 64 ≤ 223)]
      have hcb : utf8ContB (128 + c.toNat % 64) = true := by
        rw [utf8ContB]
        simp
        omega
      simp [hcb]
      have harith : c.toNat / 64 * 64 + c.toNat % 64 = c.toNat := by omega
      rw [harith, Char.ofNat_toNat]
    · by_cases h3 : c.toNat < 65536
      · have he : utf8EncodeChar c = [224 + c.toNat / 4096,
            128 + c.toNat / 64 % 64, 128 + c.toNat % 64] := by
          rw [utf8EncodeChar]
          simp [h1, h2, h3]
        rw [he, List.cons_append, List.cons_append, List.singleton_append,
          utf8DecodeReplF]
        rw [if_neg (by omega : ¬ (224 + c.toNat / 4096 < 128))]
        rw [if_neg (by omega : ¬ (194 ≤ 224 + c.toNat / 4096 ∧
          224 + c.toNat / 4096 ≤ 223))]
        rw [if_pos (by omega : 224 ≤ 224 + c.toNat / 4096 ∧
          224 + c.toNat / 4096 ≤ 239)]
        have hc3 : utf8Cont3 (224 + c.toNat / 4096) (128 + c.toNat / 64 % 64) =
            true := by
          rw [utf8Cont3]
          by_cases h224 : (224 + c.toNat / 4096) = 224
          · rw [if_pos h224]
            simp
            omega
          · rw [if_neg h224]
            by_cases h237 : (224 + c.toNat / 4096) = 237
            · rw [if_pos h237]
              simp
              omega
            · rw [if_neg h237]
              simp
              omega
        have hcb : utf8ContB (128 + c.toNat % 64) = true := by
          rw [utf8ContB]
          simp
          omega
        simp [hc3, hcb]
        have harith : c.toNat / 4096 * 4096 + c.toNat / 64 % 64 * 64 +
            c.toNat % 64 = c.toNat := by omega
        rw [harith, Char.ofNat_toNat]
      · have he : utf8EncodeChar c = [240 + c.toNat / 262144,
            128 + c.toNat / 4096 % 64, 128 + c.toNat / 64 % 64,
            128 + c.toNat % 64] := by
          rw [utf8EncodeChar]
          simp [h1, h2, h3]
        rw [he, List.cons_append, List.cons_append, List.cons_append,
          List.singleton_append, utf8DecodeReplF]
        rw [if_neg (by omega : ¬ (240 + c.toNat / 262144 < 128))]
        rw [if_neg (by omega : ¬ (194 ≤ 240 + c.toNat / 262144 ∧
          240 + c.toNat / 262144 ≤ 223))]
        rw [if_neg (by omega : ¬ (224 ≤ 240 + c.toNat / 262144 ∧
          240 + c.toNat / 262144 ≤ 239))]
        rw [if_pos (by omega : 240 ≤ 240 + c.toNat / 262144 ∧
          240 + c.toNat / 262144 ≤ 244)]
        have hc4 : utf8Cont4 (240 + c.toNat / 262144) (128 + c.toNat / 4096 % 64) =
            true := by
          rw [utf8Cont4]
          by_cases h240 : (240 + c.toNat / 262144) = 240
          · rw [if_pos h240]
            simp
            omega
          · rw [if_neg h240]
            by_cases h244 : (240 + c.toNat / 262144) = 244
            · rw [if_pos h244]
              simp
              omega
            · rw [if_neg h244]
              simp
              omega
        have hcb3 : utf8ContB (128 + c.toNat / 64 % 64) = true := by
          rw [utf8ContB]
          simp
          omega
        have hcb4 : utf8ContB (128 + c.toNat % 64) = true := by
          rw [utf8ContB]
          simp
          omega
        simp [hc4, hcb3, hcb4]
        have harith : c.toNat / 262144 * 262144 + c.toNat / 4096 % 64 * 4096 +
            c.toNat / 64 % 64 * 64 + c.toNat % 64 = c.toNat := by omega
        rw [harith, Char.ofNat_toNat]

theorem utf8_roundtrip_aux :
    ∀ (cs : List Char) (f : Nat) (rest : List Nat),
      utf8DecodeReplF (cs.length + f) (utf8Encode cs ++ rest) =
        cs ++ utf8DecodeReplF f rest := by
  intro cs
  induction cs with
  | nil =>
    intro f rest
    rw [utf8Encode, List.nil_append]
    have hl : ([] : List Char).length + f = f := by simp
    rw [hl, List.nil_append]
  | cons c cs ih =>
    intro f rest
    rw [utf8Encode, List.append_assoc]
    have hl : (c :: cs).length + f = (cs.length + f) + 1 := by
      simp
      omega
    rw [hl, utf8DecodeStep, ih, List.cons_append]

theorem utf8_roundtrip (cs : List Char) :
    utf8DecodeRepl (utf8Encode cs) = cs := by
  have hge := utf8Encode_len_ge cs
  have hf : (utf8Encode cs).length =
      cs.length + ((utf8Encode cs).length - cs.length) := by omega
  rw [utf8DecodeRepl, hf]
  have haux := utf8_roundtrip_aux cs ((utf8Encode cs).length - cs.length) []
  rw [List.append_nil] at haux
  rw [haux, utf8DecodeReplF_nil, List.append_nil]

theorem hexRound : ∀ x, x < 16 → parseHexDigit (hexDigitLower x) = some x := by
  decide

theorem escapeJson_len (l : List Char) : l.length ≤ (escapeJson l).length := by
  induction l with
  | nil => simp [escapeJson]
  | cons c l ih =>
    rw [escapeJson, List.length_append]
    have h1 : 1 ≤ (escapeJsonChar c).length := by
      rw [escapeJsonChar]
      repeat' split
      all_goals simp
    simp only [List.length_cons]
    omega

theorem parseJStr_escaped :
    ∀ (l : List Char) (f : Nat) (r : List Char), l.length < f →
      parseJStrF f (escapeJson l ++ (quoteChar :: r)) = .ok (l, r) := by
  intro l
  induction l with
  | nil =>
    intro f r hf
    match f, hf with
    | f + 1, _ =>
      rw [escapeJson, List.nil_append, parseJStrF.eq_def]
      dsimp only
      rw [if_pos rfl]
  | cons c l ih =>
    intro f r hf
    match f, hf with
    | f + 1, hf =>
      have hihf : l.length < f := by simp at hf; omega
      have hrec := ih f r hihf
      have hq1 : ¬ ('\\' = quoteChar) := by decide
      have hq2 : ¬ ('b' = quoteChar) := by decide
      have hq3 : ¬ ('t' = quoteChar) := by decide
      have hq4 : ¬ ('n' = quoteChar) := by decide
      have hq5 : ¬ ('f' = quoteChar) := by decide
      have hq6 : ¬ ('r' = quoteChar) := by decide
      have hq7 : ¬ ('u' = quoteChar) := by decide
      have hq8 : ¬ ('0' = quoteChar) := by decide
      rw [escapeJson, List.append_assoc, escapeJsonChar]
      by_cases h1 : c = quoteChar
      · subst h1
        rw [if_pos rfl]
        simp only [List.cons_append, List.singleton_append]
        rw [parseJStrF.eq_def]
        simp [hrec, exceptBind_ok, hq1, hq2, hq3, hq4, hq5, hq6, hq7, hq8]
      · rw [if_neg h1]
        by_cases h2 : c = '\\'
        · subst h2
          rw [if_pos rfl]
          simp only [List.cons_append, List.singleton_append]
          rw [parseJStrF.eq_def]
          simp [hrec, exceptBind_ok, hq1, hq2, hq3, hq4, hq5, hq6, hq7, hq8]
        · rw [if_neg h2]
          by_cases h3 : c.toNat = 8
          · rw [if_pos h3]
            have hc : Char.ofNat 8 = c := by rw [← h3, Char.ofNat_toNat]
            simp only [List.cons_append, List.singleton_append]
            rw [parseJStrF.eq_def]
            simp [hrec, exceptBind_ok, hq1, hq2, hq3, hq4, hq5, hq6, hq7, hq8]
            exact hc
          · rw [if_neg h3]
            by_cases h4 : c.toNat = 9
            · rw [if_pos h4]
              have hc : Char.ofNat 9 = c := by rw [← h4, Char.ofNat_toNat]
              have hc2 : '\t' = c := hc
              simp only [List.cons_append, List.singleton_append]
              rw [parseJStrF.eq_def]
              simp [hrec, exceptBind_ok, hq1, hq2, hq3, hq4, hq5, hq6, hq7, hq8]
              exact hc2
            · rw [if_neg h4]
              by_cases h5 : c.toNat = 10
              · rw [if_pos h5]
                have hc : Char.ofNat 10 = c := by rw [← h5, Char.ofNat_toNat]
                have hc2 : '\n' = c := hc
                simp only [List.cons_append, List.singleton_append]
                rw [parseJStrF.eq_def]
                simp [hrec, exceptBind_ok, hq1, hq2, hq3, hq4, hq5, hq6, hq7, hq8]
                exact hc2
              · rw [if_neg h5]
                by_cases h6 : c.toNat = 12
                · rw [if_pos h6]
                  have hc : Char.ofNat 12 = c := by rw [← h6, Char.ofNat_toNat]
                  simp only [List.cons_append, List.singleton_append]
                  rw [parseJStrF.eq_def]
                  simp [hrec, exceptBind_ok, hq1, hq2, hq3, hq4, hq5, hq6, hq7, hq8]
                  exact hc
                · rw [if_neg h6]
                  by_cases h7 : c.toNat = 13
                  · rw [if_pos h7]
                    have hc : Char.ofNat 13 = c := by rw [← h7, Char.ofNat_toNat]
                    have hc2 : '\r' = c := hc
                    simp only [List.cons_append, List.singleton_append]
                    rw [parseJStrF.eq_def]
                    simp [hrec, exceptBind_ok, hq1, hq2, hq3, hq4, hq5, hq6, hq7, hq8]
                    exact hc2
                  · rw [if_neg h7]
                    by_cases h8 : c.toNat < 32
                    · rw [if_pos h8]
                      have hhx1 : parseHexDigit (hexDigitLower (c.toNat / 16)) =
                          some (c.toNat / 16) := hexRound _ (by omega)
                      have hhx2 : parseHexDigit (hexDigitLower (c.toNat % 16)) =
                          some (c.toNat % 16) := hexRound _ (by omega)
                      have hz : parseHexDigit '0' = some 0 := by decide
                      have hno1 : ¬ (55296 ≤ c.toNat / 16 * 16 + c.toNat % 16 ∧
                          c.toNat / 16 * 16 + c.toNat % 16 ≤ 56319) := by omega
                      have hno2 : ¬ (56320 ≤ c.toNat / 16 * 16 + c.toNat % 16 ∧
                          c.toNat / 16 * 16 + c.toNat % 16 ≤ 57343) := by omega
                      have harith : c.toNat / 16 * 16 + c.toNat % 16 = c.toNat := by
                        omega
                      have hc : Char.ofNat (c.toNat / 16 * 16 + c.toNat % 16) = c := by
                        rw [harith, Char.ofNat_toNat]
                      simp only [List.cons_append, List.singleton_append]
                      rw [parseJStrF.eq_def]
                      simp [hrec, exceptBind_ok, hz, hhx1, hhx2, hno1, hno2, hq1, hq2, hq3, hq4, hq5, hq6, hq7, hq8]
                      exact hc
                    · rw [if_neg h8]
                      simp only [List.cons_append, List.singleton_append,
                        List.nil_append]
                      rw [parseJStrF.eq_def]
                      simp [hrec, exceptBind_ok, h1, h2, h8, hq1, hq2, hq3, hq4, hq5, hq6, hq7, hq8]

theorem skipJsonWs_notWs {c : Char} (cs : List Char) (h : jsonWs c = false) :
    skipJsonWs (c :: cs) = c :: cs := by
  rw [skipJsonWs, List.dropWhile_cons_of_neg (by simp [h])]

theorem upsertField_fresh (acc : List (String × JSVal)) (k : String) (v : JSVal)
    (h : ∀ q ∈ acc, q.1 ≠ k) : upsertField acc k v = acc ++ [(k, v)] := by
  have hcond : ¬ (acc.any (fun p => p.1 == k) = true) := by
    intro hcon
    rw [List.any_eq_true] at hcon
    obtain ⟨p, hp, hpk⟩ := hcon
    exact h p hp (by simpa using hpk)
  rw [upsertField, if_neg hcond]

theorem parseValue_str (val : String) (g : Nat) (tl : List Char)
    (hg : val.data.length < g) :
    parseValue (g + 1) (quoteChar :: (escapeJson val.data ++ (quoteChar :: tl))) =
      .ok (.str val, tl) := by
  have hql : ¬ (quoteChar = lbrace) := by decide
  have hqb : ¬ (quoteChar = '[') := by decide
  rw [parseValue.eq_def]
  dsimp only
  rw [if_neg hql, if_neg hqb, if_pos rfl,
    parseJStr_escaped val.data g tl hg]
  rw [exceptBind_ok]

theorem parseObjBody_member (k vd : String) (T : List Char)
    (acc : List (String × JSVal)) (g : Nat)
    (hk : k.data.length < g) (hv : vd.data.length + 1 < g)
    (hfresh : ∀ q ∈ acc, q.1 ≠ k) :
    parseObjBody (g + 1) (quoteChar :: (escapeJson k.data ++ (quoteChar :: (':' ::
        (quoteChar :: (escapeJson vd.data ++ (quoteChar :: T))))))) acc =
      (match skipJsonWs T with
       | c2 :: r6 =>
         if c2 = ',' then parseObjBody g (skipJsonWs r6) (acc ++ [(k, .str vd)])
         else if c2 = rbrace then .ok (.obj (acc ++ [(k, .str vd)]), r6)
         else .error .syntaxError
       | [] => .error .syntaxError) := by
  obtain ⟨g2, rfl⟩ : ∃ g2, g = g2 + 1 := ⟨g - 1, by omega⟩
  have hq1 : ¬ (quoteChar = rbrace) := by decide
  rw [parseObjBody.eq_def]
  dsimp only
  rw [if_neg hq1, if_pos rfl, parseJStr_escaped k.data (g2 + 1) _ hk]
  rw [exceptBind_ok]
  rw [skipJsonWs_notWs _ (by decide : jsonWs ':' = false)]
  simp only [skipJsonWs_notWs (escapeJson vd.data ++ (quoteChar :: T))
      (by decide : jsonWs quoteChar = false),
    parseValue_str vd g2 T (by omega), exceptBind_ok, stringMk_data,
    upsertField_fresh acc k (JSVal.str vd) hfresh]

theorem jsonMember_shape (q : String × String) (X : List Char) :
    jsonMember q ++ X = quoteChar :: (escapeJson q.1.data ++ (quoteChar :: (':' ::
      (quoteChar :: (escapeJson q.2.data ++ (quoteChar :: X)))))) := by
  simp [jsonMember, jsonQuote, List.append_assoc, List.cons_append]

theorem jsonMembersTail_len_pos (rest : List (String × String)) :
    1 ≤ (jsonMembersTail rest).length := by
  cases rest with
  | nil => simp [jsonMembersTail]
  | cons q r => simp [jsonMembersTail]

theorem parseObjBody_loop :
    ∀ (rest : List (String × String)) (p : String × String)
      (acc : List (String × JSVal)) (f : Nat),
      (jsonMembers (p :: rest)).length < f →
      (∀ x ∈ p :: rest, ∀ q ∈ acc, q.1 ≠ x.1) →
      ((p :: rest).map Prod.fst).Nodup →
      parseObjBody f (jsonMembers (p :: rest)) acc =
        .ok (.obj (acc ++ (p :: rest).map (fun x => (x.1, JSVal.str x.2))), []) := by
  intro rest
  induction rest with
  | nil =>
    intro p acc f hf hdis hnd
    have hshape : jsonMembers [p] = quoteChar :: (escapeJson p.1.data ++
        (quoteChar :: (':' :: (quoteChar :: (escapeJson p.2.data ++
        (quoteChar :: [rbrace])))))) := by
      show jsonMember p ++ jsonMembersTail [] = _
      rw [jsonMember_shape]
      rfl
    have hlen : (jsonMembers [p]).length = (escapeJson p.1.data).length +
        (escapeJson p.2.data).length + 6 := by
      rw [hshape]
      simp
      omega
    have hkb := escapeJson_len p.1.data
    have hvb := escapeJson_len p.2.data
    obtain ⟨g, rfl⟩ : ∃ g, f = g + 1 := ⟨f - 1, by omega⟩
    rw [hshape, parseObjBody_member p.1 p.2 [rbrace] acc g
      (by omega) (by omega)
      (fun q hq => hdis p (List.mem_cons_self p []) q hq)]
    rw [skipJsonWs_notWs _ (by decide : jsonWs rbrace = false)]
    dsimp only
    rw [if_neg (by decide : ¬ (rbrace = ',')), if_pos rfl]
    simp
  | cons q rest ih =>
    intro p acc f hf hdis hnd
    have hshape : jsonMembers (p :: q :: rest) = quoteChar ::
        (escapeJson p.1.data ++ (quoteChar :: (':' :: (quoteChar ::
        (escapeJson p.2.data ++ (quoteChar :: (',' ::
        (jsonMember q ++ jsonMembersTail rest)))))))) := by
      show jsonMember p ++ jsonMembersTail (q :: rest) = _
      rw [show jsonMembersTail (q :: rest) = ',' ::
        (jsonMember q ++ jsonMembersTail rest) from rfl]
      rw [jsonMember_shape]
    have hmq : jsonMembers (q :: rest) = jsonMember q ++ jsonMembersTail rest := rfl
    have hlen2 : (jsonMembers (q :: rest)).length =
        (jsonMember q).length + (jsonMembersTail rest).length := by
      rw [hmq]
      simp
    have hlen : (jsonMembers (p :: q :: rest)).length = (escapeJson p.1.data).length +
        (escapeJson p.2.data).length + 6 +
        ((jsonMember q).length + (jsonMembersTail rest).length) := by
      rw [hshape]
      simp [List.length_append, List.length_cons]
      omega
    have hkb := escapeJson_len p.1.data
    have hvb := escapeJson_len p.2.data
    obtain ⟨g, rfl⟩ : ∃ g, f = g + 1 := ⟨f - 1, by omega⟩
    rw [hshape, parseObjBody_member p.1 p.2 _ acc g
      (by omega) (by omega)
      (fun w hw => hdis p (List.mem_cons_self p (q :: rest)) w hw)]
    rw [skipJsonWs_notWs _ (by decide : jsonWs ',' = false)]
    dsimp only
    rw [if_pos rfl]
    have hskipm : skipJsonWs (jsonMember q ++ jsonMembersTail rest) =
        jsonMember q ++ jsonMembersTail rest := by
      rw [jsonMember_shape]
      exact skipJsonWs_notWs _ (by decide : jsonWs quoteChar = false)
    rw [hskipm, ← hmq]
    have hnd2 := List.nodup_cons.mp hnd
    rw [ih q (acc ++ [(p.1, JSVal.str p.2)]) g (by omega)
      (by
        intro x hx w hw
        rcases List.mem_append.mp hw with hw | hw
        · exact hdis x (List.mem_cons_of_mem p hx) w hw
        · have hwp : w = (p.1, JSVal.str p.2) := by simpa using hw
          subst hwp
          intro hcon
          exact hnd2.1 (by
            rw [hcon]
            exact List.mem_map.mpr ⟨x, hx, rfl⟩))
      hnd2.2]
    simp [List.append_assoc]

theorem jsonParse_stringify (v : List (String × String))
    (hnd : (v.map Prod.fst).Nodup) :
    jsonParse (jsonStringifyFlat v) =
      .ok (.obj (v.map (fun p => (p.1, JSVal.str p.2)))) := by
  cases v with
  | nil => rfl
  | cons p rest =>
    rw [jsonParse]
    have hdata : (jsonStringifyFlat (p :: rest)).data =
        lbrace :: jsonMembers (p :: rest) := rfl
    have hlen : (jsonStringifyFlat (p :: rest)).length =
        (jsonMembers (p :: rest)).length + 1 := by
      show (jsonStringifyFlat (p :: rest)).data.length = _
      rw [hdata]
      simp
    rw [hdata, hlen]
    rw [skipJsonWs_notWs _ (by decide : jsonWs lbrace = false)]
    rw [parseValue.eq_def]
    dsimp only
    rw [if_pos rfl]
    have hmb : jsonMembers (p :: rest) = quoteChar :: (escapeJson p.1.data ++
        (quoteChar :: (':' :: (quoteChar :: (escapeJson p.2.data ++
        (quoteChar :: jsonMembersTail rest)))))) := by
      show jsonMember p ++ jsonMembersTail rest = _
      rw [jsonMember_shape]
    have hskip : skipJsonWs (jsonMembers (p :: rest)) = jsonMembers (p :: rest) := by
      rw [hmb]
      exact skipJsonWs_notWs _ (by decide : jsonWs quoteChar = false)
    rw [hskip]
    rw [parseObjBody_loop rest p [] ((jsonMembers (p :: rest)).length + 1)
      (by omega) (by intro x hx w hw; simp at hw) hnd]
    rw [exceptBind_ok]
    rfl

theorem decodeBase64_encode_lb (l : List Char) :
    decodeBase64 (base64Encode (utf8Encode (lbrace :: l))) =
      .ok (String.mk (lbrace :: l)) := by
  rw [decodeBase64, atob_roundtrip _ (utf8Encode_lt _)]
  show Except.ok (String.mk (utf8DecodeRepl (utf8Encode (lbrace :: l)))) =
    Except.ok (String.mk (lbrace :: l))
  rw [utf8_roundtrip]

/-- C5 (confirmed). For every flat string-to-string mapping `v` with
pairwise-distinct keys, embedding the Base64-encoded JSON serialisation
of `v` in a `<lake-box name="x" value="…">` opening tag, parsing the
tag's attributes, and resolving the box value (Base64 decode plus JSON
parse) returns exactly the mapping `v` (attribute-transport
round-trip). -/
theorem boxValue_roundtrip (v : List (String × String))
    (hnd : (v.map Prod.fst).Nodup) :
    resolveBoxValue (parseAttributes ("<lake-box name=\"x\" value=\"" ++
        base64Encode (utf8Encode (jsonStringifyFlat v).data) ++ "\">")) =
      .ok (.obj (v.map (fun p => (p.1, JSVal.str p.2)))) := by
  have hbytes : ∀ b ∈ utf8Encode (jsonStringifyFlat v).data, b < 256 :=
    utf8Encode_lt _
  have hBdata : (base64Encode (utf8Encode (jsonStringifyFlat v).data)).data =
      (b64Sextets (utf8Encode (jsonStringifyFlat v).data)).map b64Char ++
        b64Pad (utf8Encode (jsonStringifyFlat v).data) := rfl
  have hBchars : ∀ c ∈ (base64Encode (utf8Encode (jsonStringifyFlat v).data)).data,
      c ≠ quoteChar := by
    intro c hc
    rw [hBdata] at hc
    rcases List.mem_append.mp hc with hc | hc
    · obtain ⟨s, hs, rfl⟩ := List.mem_map.mp hc
      exact (b64Char_facts s (b64Sextets_lt
        (utf8Encode (jsonStringifyFlat v).data).length _ (le_refl _)
        hbytes s hs)).2.2.1
    · rcases b64Pad_shape (utf8Encode (jsonStringifyFlat v).data).length _
        (le_refl _) with hp | hp | hp <;> rw [hp] at hc
      · simp at hc
      · simp at hc
        subst hc
        decide
      · simp at hc
        subst hc
        decide
  have hpre : ("<lake-box name=\"" ++ "x" ++ "\" value=\"" : String) =
      "<lake-box name=\"x\" value=\"" := by decide
  rw [← hpre, parseAttributes_nameValue "x" _ (by decide) hBchars]
  have hsdata : (jsonStringifyFlat v).data = lbrace :: jsonMembers v := rfl
  have hbne : utf8Encode (jsonStringifyFlat v).data ≠ [] := by
    rw [hsdata]
    intro hcon
    have h0 : (utf8Encode (lbrace :: jsonMembers v)).length = 0 := by
      rw [hcon]
      rfl
    have hge := utf8Encode_len_ge (lbrace :: jsonMembers v)
    rw [h0] at hge
    simp at hge
  have hne : (base64Encode (utf8Encode (jsonStringifyFlat v).data)).isEmpty
      = false := by
    cases hE : (base64Encode (utf8Encode (jsonStringifyFlat v).data)).isEmpty
    · rfl
    · exfalso
      have hBE := (String.isEmpty_iff _).mp hE
      have hdl : (base64Encode (utf8Encode (jsonStringifyFlat v).data)).data =
          [] := by rw [hBE]
      rw [hBdata] at hdl
      have hm := (List.append_eq_nil.mp hdl).1
      exact b64Sextets_ne_nil _ hbne (List.map_eq_nil_iff.mp hm)
  have hlookv : (([("name", "x"),
      ("value", base64Encode (utf8Encode (jsonStringifyFlat v).data))] :
      List (String × String)).lookup "value") =
      some (base64Encode (utf8Encode (jsonStringifyFlat v).data)) := by
    simp [List.lookup]
  rw [resolveBoxValue, hlookv]
  simp only [hne, Bool.false_eq_true, if_false]
  have hdec : decodeBase64 (base64Encode (utf8Encode (jsonStringifyFlat v).data)) =
      .ok (jsonStringifyFlat v) := by
    rw [hsdata, decodeBase64_encode_lb]
    rfl
  rw [hdec, exceptBind_ok]
  exact jsonParse_stringify v hnd

/-- Witness for C5: the one-entry mapping `url ↦ a.png` survives the
round-trip. -/
theorem boxValue_roundtrip_witness :
    (([("url", "a.png")] : List (String × String)).map Prod.fst).Nodup ∧
    resolveBoxValue (parseAttributes ("<lake-box name=\"x\" value=\"" ++
        base64Encode (utf8Encode
          (jsonStringifyFlat [("url", "a.png")]).data) ++ "\">")) =
      .ok (.obj [("url", JSVal.str "a.png")]) :=
  ⟨by decide, boxValue_roundtrip [("url", "a.png")] (by decide)⟩

end Lake2Html
